import Mathlib

/-!
Verification of the timing / playback-scheduling core of the midi-vis-webgpu
repository.

The TypeScript sources `src/lib/midi/types.ts` (class `MidiTiming`) and
`src/lib/webgpu/gpuDevice.ts` (class `AudioEngine`) are shallowly embedded
here.  JavaScript numbers are modelled as exact rationals (`ℚ`); the special
values `NaN` and `±Infinity`, which the code sanitizes at its query
boundaries, are modelled by the dedicated input type `JsInput`.  JavaScript's
stable `Array.prototype.sort` is modelled by `List.insertionSort` (a stable
sort; for a total preorder comparator every stable sort computes the same
list).  `Math.floor` is `Int.floor`, and `Math.round` (round half towards
positive infinity) is `⌊x + 1/2⌋`.
-/

namespace MidiVis

/-- A JavaScript `number` argument at a sanitizing query boundary: either a
finite value (modelled exactly as a rational) or one of the non-finite
values the source checks for with `Number.isFinite` / `=== Infinity`. -/
inductive JsInput where
  | nan : JsInput
  | posInf : JsInput
  | negInf : JsInput
  | num (q : ℚ) : JsInput
  deriving DecidableEq, Repr

/-- `Math.trunc` / `x | 0` on a finite number: truncation towards zero. -/
def jsTrunc (q : ℚ) : ℤ := if 0 ≤ q then ⌊q⌋ else ⌈q⌉

/-- `Math.round` on a finite number: round half towards `+∞`. -/
def jsRound (q : ℚ) : ℤ := ⌊q + 1 / 2⌋

/-- `Math.max(0, Math.min(1, v))`. -/
def clamp01 (v : ℚ) : ℚ := max 0 (min 1 v)

/-- `Math.max(-1, Math.min(1, v))`. -/
def clamp11 (v : ℚ) : ℚ := max (-1) (min 1 v)

/-! ## `src/lib/midi/types.ts` — data model and `MidiTiming` -/

/-- `TempoEvent {ticks, bpm}`. -/
structure TempoEvent where
  ticks : ℚ
  bpm : ℚ
  deriving DecidableEq, Repr, Inhabited

/-- `TimeSignatureEvent {ticks, timeSignature}`; the signature is the pair
`[numerator, denominator]`. -/
structure TimeSignatureEvent where
  ticks : ℚ
  timeSignature : ℚ × ℚ
  deriving DecidableEq, Repr, Inhabited

/-- Derived `TempoSegment {startTick, endTick, bpm, startSeconds, endSeconds}`. -/
structure TempoSegment where
  startTick : ℚ
  endTick : ℚ
  bpm : ℚ
  startSeconds : ℚ
  endSeconds : ℚ
  deriving DecidableEq, Repr

instance : Inhabited TempoSegment := ⟨⟨0, 0, 0, 0, 0⟩⟩

/-- Derived `MeasureInfo {startTick, timeSignature}`. -/
structure MeasureInfo where
  startTick : ℚ
  timeSignature : ℚ × ℚ
  deriving DecidableEq, Repr

instance : Inhabited MeasureInfo := ⟨⟨0, (4, 4)⟩⟩

/-- `BarBeatPosition` returned by `getBarBeatAtTicks`. -/
structure BarBeatPosition where
  bar : ℚ
  beat : ℚ
  subBeat1000 : ℚ
  timeSignature : ℚ × ℚ
  deriving DecidableEq, Repr

/-- `ticksPerBeat(ppq, timeSignature) = ppq * 4 / denominator`. -/
def ticksPerBeat (ppq : ℚ) (timeSignature : ℚ × ℚ) : ℚ :=
  (ppq * 4) / timeSignature.2

/-- `ticksToSecondsDelta(ticks, bpm, ppq) = (ticks / ppq) * (60 / bpm)`. -/
def ticksToSecondsDelta (ticks bpm ppq : ℚ) : ℚ :=
  (ticks / ppq) * (60 / bpm)

/-- `secondsToTicksDelta(seconds, bpm, ppq) = seconds * bpm * ppq / 60`. -/
def secondsToTicksDelta (seconds bpm ppq : ℚ) : ℚ :=
  (seconds * bpm * ppq) / 60

/-- Comparator relation of `.sort((a, b) => a.ticks - b.ticks)` on tempo
events. -/
def tempoTickLe (a b : TempoEvent) : Prop := a.ticks ≤ b.ticks

instance : DecidableRel tempoTickLe := fun a b =>
  inferInstanceAs (Decidable (a.ticks ≤ b.ticks))

instance : IsTotal TempoEvent tempoTickLe := ⟨fun a b => le_total a.ticks b.ticks⟩

instance : IsTrans TempoEvent tempoTickLe := ⟨fun _ _ _ h1 h2 => le_trans h1 h2⟩

/-- Comparator relation of `.sort((a, b) => a.ticks - b.ticks)` on
time-signature events. -/
def tsTickLe (a b : TimeSignatureEvent) : Prop := a.ticks ≤ b.ticks

instance : DecidableRel tsTickLe := fun a b =>
  inferInstanceAs (Decidable (a.ticks ≤ b.ticks))

instance : IsTotal TimeSignatureEvent tsTickLe := ⟨fun a b => le_total a.ticks b.ticks⟩

instance : IsTrans TimeSignatureEvent tsTickLe := ⟨fun _ _ _ h1 h2 => le_trans h1 h2⟩

/-- The duplicate-tick collapse of `normalizeTempoEvents`: the source walks
the sorted array keeping a write cursor and replaces the previously kept
entry whenever the next entry has the same tick ("last one wins").  On every
input this computes the same list as the following recursion, which keeps
the later of any two adjacent equal-tick entries. -/
def dedupTempos : List TempoEvent → List TempoEvent
  | [] => []
  | [a] => [a]
  | a :: b :: rest =>
    if a.ticks = b.ticks then dedupTempos (b :: rest)
    else a :: dedupTempos (b :: rest)

/-- `normalizeTempoEvents`: empty input becomes the MIDI default
`[{ticks: 0, bpm: 120}]`; otherwise duplicates are collapsed (last wins) and
a 120-bpm event is injected at tick 0 when the first surviving entry is not
at tick 0. -/
def normalizeTempoEvents (tempos : List TempoEvent) : List TempoEvent :=
  match tempos with
  | [] => [⟨0, 120⟩]
  | _ =>
    let deduped := dedupTempos tempos
    if (deduped.headD default).ticks ≠ 0 then ⟨0, 120⟩ :: deduped else deduped

/-- Duplicate-tick collapse of `normalizeTimeSignatureEvents` (same shape as
`dedupTempos`). -/
def dedupTimeSignatures : List TimeSignatureEvent → List TimeSignatureEvent
  | [] => []
  | [a] => [a]
  | a :: b :: rest =>
    if a.ticks = b.ticks then dedupTimeSignatures (b :: rest)
    else a :: dedupTimeSignatures (b :: rest)

/-- `normalizeTimeSignatureEvents`: empty input becomes `[{0, [4,4]}]`;
otherwise duplicates are collapsed and a 4/4 event is injected at tick 0
when the first surviving entry is not at tick 0. -/
def normalizeTimeSignatureEvents (tss : List TimeSignatureEvent) : List TimeSignatureEvent :=
  match tss with
  | [] => [⟨0, (4, 4)⟩]
  | _ =>
    let deduped := dedupTimeSignatures tss
    if (deduped.headD default).ticks ≠ 0 then ⟨0, (4, 4)⟩ :: deduped else deduped

/-- The shared binary-search loop of `upperBoundByStartTick`,
`upperBoundByStartSeconds` and `upperBoundMeasureStart`: first index in
`[lo, hi)` whose key is greater than `x`.  The `fuel` argument makes the
loop structurally recursive; `fuel = hi - lo` iterations always suffice
because each step strictly shrinks `hi - lo`, so with the fuel chosen at the
call sites below the `0` case is never reached. -/
def upperBoundAux {α : Type} (key : α → ℚ) (d : α) (arr : List α) (x : ℚ)
    (fuel lo hi : ℕ) : ℕ :=
  if h : fuel = 0 then lo
  else if lo < hi then
    let mid := (lo + hi) / 2
    if key (arr.getD mid d) ≤ x then upperBoundAux key d arr x (fuel - 1) (mid + 1) hi
    else upperBoundAux key d arr x (fuel - 1) lo mid
  else lo
termination_by fuel
decreasing_by all_goals omega

theorem upperBoundAux_done {α : Type} (key : α → ℚ) (d : α) (arr : List α)
    (x : ℚ) (fuel lo hi : ℕ) (h : ¬ lo < hi) :
    upperBoundAux key d arr x fuel lo hi = lo := by
  rw [upperBoundAux]
  split
  · rfl
  · simp [h]

theorem upperBoundAux_le {α : Type} (key : α → ℚ) (d : α) (arr : List α)
    (x : ℚ) (fuel lo hi : ℕ) (hf : fuel ≠ 0) (hlo : lo < hi)
    (hk : key (arr.getD ((lo + hi) / 2) d) ≤ x) :
    upperBoundAux key d arr x fuel lo hi =
      upperBoundAux key d arr x (fuel - 1) ((lo + hi) / 2 + 1) hi := by
  rw [upperBoundAux]
  simp only [dif_neg hf, if_pos hlo, if_pos hk]

theorem upperBoundAux_gt {α : Type} (key : α → ℚ) (d : α) (arr : List α)
    (x : ℚ) (fuel lo hi : ℕ) (hf : fuel ≠ 0) (hlo : lo < hi)
    (hk : ¬ key (arr.getD ((lo + hi) / 2) d) ≤ x) :
    upperBoundAux key d arr x fuel lo hi =
      upperBoundAux key d arr x (fuel - 1) lo ((lo + hi) / 2) := by
  rw [upperBoundAux]
  simp only [dif_neg hf, if_pos hlo, if_neg hk]

/-- `upperBoundByStartTick`: first index with `segments[i].startTick > tick`. -/
def upperBoundByStartTick (segments : List TempoSegment) (tick : ℚ) : ℕ :=
  upperBoundAux (·.startTick) default segments tick segments.length 0 segments.length

/-- `upperBoundByStartSeconds`: first index with
`segments[i].startSeconds > seconds`. -/
def upperBoundByStartSeconds (segments : List TempoSegment) (seconds : ℚ) : ℕ :=
  upperBoundAux (·.startSeconds) default segments seconds segments.length 0 segments.length

/-- `upperBoundMeasureStart`: first index with `measures[i].startTick > tick`. -/
def upperBoundMeasureStart (measures : List MeasureInfo) (tick : ℚ) : ℕ :=
  upperBoundAux (·.startTick) default measures tick measures.length 0 measures.length

/-- The loop body of `MidiTiming.buildTempoSegments`.  Each iteration emits
one segment, advances the seconds cursor to the segment's `endSeconds`, and
stops (`break`) as soon as a segment reaches `durationTicks`. -/
def buildTempoSegments (ppq durationTicks : ℚ) :
    List TempoEvent → ℚ → List TempoSegment
  | [], _ => []
  | cur :: rest, secondsCursor =>
    let nextTick := match rest.head? with
      | some n => n.ticks
      | none => durationTicks
    let startTick := cur.ticks
    let endTick := max startTick (min nextTick durationTicks)
    let segSeconds := ticksToSecondsDelta (endTick - startTick) cur.bpm ppq
    let seg : TempoSegment :=
      ⟨startTick, endTick, cur.bpm, secondsCursor, secondsCursor + segSeconds⟩
    if durationTicks ≤ endTick then [seg]
    else seg :: buildTempoSegments ppq durationTicks rest seg.endSeconds

/-- One iteration's cursor advance in `buildMeasures`: `+∞` (an absent next
time-signature event) is modelled by `none`, for which both comparisons
against `nextTSTick` are false. -/
def buildMeasuresGo (ppq durationTicks : ℚ) (tss : List TimeSignatureEvent)
    (fuel : ℕ) (tickCursor : ℚ) (tsIndex : ℕ) (currentTS : ℚ × ℚ)
    (nextTSTick : Option ℚ) (acc : List MeasureInfo) : List MeasureInfo :=
  if h : fuel = 0 then acc.reverse
  else
    if tickCursor ≤ durationTicks then
      let acc' := (⟨tickCursor, currentTS⟩ : MeasureInfo) :: acc
      let tpb := ticksPerBeat ppq currentTS
      let measureLen := tpb * currentTS.1
      let nextMeasureTick := tickCursor + measureLen
      let tickCursor' := match nextTSTick with
        | some nt => if nt < nextMeasureTick then nt else nextMeasureTick
        | none => nextMeasureTick
      let crossed : Bool := match nextTSTick with
        | some nt => decide (nt ≤ tickCursor')
        | none => false
      let tsIndex' := if crossed then tsIndex + 1 else tsIndex
      let currentTS' :=
        if crossed then ((tss[tsIndex']?).map (·.timeSignature)).getD currentTS
        else currentTS
      let nextTSTick' :=
        if crossed then (tss[tsIndex' + 1]?).map (·.ticks) else nextTSTick
      -- Source progress guard: `!Number.isFinite(tickCursor)` cannot happen
      -- over ℚ; `tickCursor <= last pushed startTick` stops the loop.
      if tickCursor' ≤ tickCursor then acc'.reverse
      else buildMeasuresGo ppq durationTicks tss (fuel - 1) tickCursor' tsIndex'
        currentTS' nextTSTick' acc'
    else acc.reverse
termination_by fuel
decreasing_by all_goals omega

theorem buildMeasuresGo_exit (ppq durationTicks : ℚ) (tss : List TimeSignatureEvent)
    (fuel : ℕ) (tickCursor : ℚ) (tsIndex : ℕ) (currentTS : ℚ × ℚ)
    (nextTSTick : Option ℚ) (acc : List MeasureInfo)
    (h : ¬ tickCursor ≤ durationTicks) :
    buildMeasuresGo ppq durationTicks tss fuel tickCursor tsIndex currentTS
      nextTSTick acc = acc.reverse := by
  rw [buildMeasuresGo]
  split
  · rfl
  · simp [h]

theorem buildMeasuresGo_step (ppq durationTicks : ℚ) (tss : List TimeSignatureEvent)
    (fuel : ℕ) (tickCursor : ℚ) (tsIndex : ℕ) (currentTS : ℚ × ℚ)
    (nextTSTick : Option ℚ) (acc : List MeasureInfo)
    (hf : fuel ≠ 0) (h : tickCursor ≤ durationTicks) :
    buildMeasuresGo ppq durationTicks tss fuel tickCursor tsIndex currentTS
        nextTSTick acc =
      (let acc' := (⟨tickCursor, currentTS⟩ : MeasureInfo) :: acc
      let tpb := ticksPerBeat ppq currentTS
      let measureLen := tpb * currentTS.1
      let nextMeasureTick := tickCursor + measureLen
      let tickCursor' := match nextTSTick with
        | some nt => if nt < nextMeasureTick then nt else nextMeasureTick
        | none => nextMeasureTick
      let crossed : Bool := match nextTSTick with
        | some nt => decide (nt ≤ tickCursor')
        | none => false
      let tsIndex' := if crossed then tsIndex + 1 else tsIndex
      let currentTS' :=
        if crossed then ((tss[tsIndex']?).map (·.timeSignature)).getD currentTS
        else currentTS
      let nextTSTick' :=
        if crossed then (tss[tsIndex' + 1]?).map (·.ticks) else nextTSTick
      if tickCursor' ≤ tickCursor then acc'.reverse
      else buildMeasuresGo ppq durationTicks tss (fuel - 1) tickCursor' tsIndex'
        currentTS' nextTSTick' acc') := by
  rw [buildMeasuresGo]
  simp only [dif_neg hf, if_pos h]

/-- Fuel used for `buildMeasures`.  The source's `while` loop terminates on
every input via its progress guard; the fuel only bounds the number of
emitted measures and is ample for every instance considered here. -/
def measuresFuel : ℕ := 1000000

/-- `MidiTiming.buildMeasures`, starting from the first normalized time
signature at tick 0. -/
def buildMeasures (ppq durationTicks : ℚ) (tss : List TimeSignatureEvent) :
    List MeasureInfo :=
  let currentTS := (tss.headD default).timeSignature
  let nextTSTick := (tss[1]?).map (·.ticks)
  buildMeasuresGo ppq durationTicks tss measuresFuel 0 0 currentTS nextTSTick []

/-- The immutable state of a constructed `MidiTiming`. -/
structure MidiTiming where
  ppq : ℚ
  durationTicks : ℚ
  durationSeconds : ℚ
  tempoSegments : List TempoSegment
  measures : List MeasureInfo
  deriving DecidableEq, Repr

/-- The constructor's tempo preprocessing: filter out invalid entries
(inputs are finite rationals, so the `Number.isFinite` conjuncts hold
identically), floor the ticks, sort by ticks (stable), then normalize. -/
def sanitizedTempos (tempos : List TempoEvent) : List TempoEvent :=
  normalizeTempoEvents
    (List.insertionSort tempoTickLe
      ((tempos.filter fun t => decide (0 ≤ t.ticks) && decide (0 < t.bpm)).map
        fun t => ⟨(⌊t.ticks⌋ : ℚ), t.bpm⟩))

/-- The constructor's time-signature preprocessing: filter (validating the
floored numerator and denominator), floor, sort by ticks (stable), then
normalize. -/
def sanitizedTimeSignatures (timeSignatures : List TimeSignatureEvent) :
    List TimeSignatureEvent :=
  normalizeTimeSignatureEvents
    (List.insertionSort tsTickLe
      ((timeSignatures.filter fun ts =>
          decide (0 ≤ ts.ticks) && decide (0 < ⌊ts.timeSignature.1⌋) &&
            decide (0 < ⌊ts.timeSignature.2⌋)).map
        fun ts => ⟨(⌊ts.ticks⌋ : ℚ), ((⌊ts.timeSignature.1⌋ : ℚ), (⌊ts.timeSignature.2⌋ : ℚ))⟩))

/-- `durationSeconds` as set by the constructor: the last segment's
`endSeconds` (0 for an empty segment list). -/
def segmentsDurationSeconds (segments : List TempoSegment) : ℚ :=
  match segments with
  | [] => 0
  | _ => (segments.getLastD default).endSeconds

/-- The `MidiTiming` constructor. -/
def mkMidiTiming (ppq durationTicks : ℚ) (tempos : List TempoEvent)
    (timeSignatures : List TimeSignatureEvent) : MidiTiming :=
  let ppq' := if 0 < ppq then ppq else 480
  let durationTicks' := max 0 durationTicks
  let segments := buildTempoSegments ppq' durationTicks' (sanitizedTempos tempos) 0
  let measures := buildMeasures ppq' durationTicks' (sanitizedTimeSignatures timeSignatures)
  ⟨ppq', durationTicks', segmentsDurationSeconds segments, segments, measures⟩

/-- Input sanitization shared by the tick-domain queries:
`Number.isFinite(x) ? x : x === +∞ ? bound : 0`. -/
def sanitizeInput (x : JsInput) (infBound : ℚ) : ℚ :=
  match x with
  | .num q => q
  | .posInf => infBound
  | _ => 0

/-- `MidiTiming.ticksToSeconds`. -/
def ticksToSeconds (m : MidiTiming) (ticks : JsInput) : ℚ :=
  let input := sanitizeInput ticks m.durationTicks
  let t := max 0 (min m.durationTicks input)
  let ub := upperBoundByStartTick m.tempoSegments t
  let seg := m.tempoSegments.getD (ub - 1) default
  seg.startSeconds + ticksToSecondsDelta (t - seg.startTick) seg.bpm m.ppq

/-- `MidiTiming.secondsToTicks`: inverts the segment formula and floors the
result after adding the `1e-6` tick epsilon. -/
def secondsToTicks (m : MidiTiming) (seconds : JsInput) : ℚ :=
  let input := sanitizeInput seconds m.durationSeconds
  let s := max 0 (min m.durationSeconds input)
  let ub := upperBoundByStartSeconds m.tempoSegments s
  let seg := m.tempoSegments.getD (ub - 1) default
  let tickFloat := seg.startTick + secondsToTicksDelta (s - seg.startSeconds) seg.bpm m.ppq
  let tickInt : ℚ := (⌊tickFloat + 1 / 1000000⌋ : ℤ)
  max 0 (min m.durationTicks tickInt)

/-- `MidiTiming.getBarBeatAtTicks`. -/
def getBarBeatAtTicks (m : MidiTiming) (ticks : JsInput) : BarBeatPosition :=
  let input := sanitizeInput ticks m.durationTicks
  let tClamped := max 0 (min m.durationTicks input)
  let t := if 0 < m.durationTicks ∧ tClamped = m.durationTicks
    then m.durationTicks - 1 else tClamped
  let ub := upperBoundMeasureStart m.measures t
  let measureIndex := ub - 1
  let measure := m.measures.getD measureIndex default
  let ts := measure.timeSignature
  let tpb := ticksPerBeat m.ppq ts
  let ticksIntoMeasure := t - measure.startTick
  let beatIndex0 := min (ts.1 - 1) (max 0 ((⌊ticksIntoMeasure / tpb⌋ : ℤ) : ℚ))
  let beat := beatIndex0 + 1
  let ticksIntoBeat := ticksIntoMeasure - beatIndex0 * tpb
  let beatProgress := if 0 < tpb
    then max 0 (min (999999 / 1000000) (ticksIntoBeat / tpb)) else 0
  let subBeat1000 := min 999 (max 0 ((⌊beatProgress * 1000⌋ : ℤ) : ℚ))
  ⟨(measureIndex : ℚ) + 1, beat, subBeat1000, ts⟩

/-- `MidiTiming.getBarStartTick` (1-based bar number). -/
def getBarStartTick (m : MidiTiming) (bar : JsInput) : ℚ :=
  let b : ℤ := match bar with
    | .num q => ⌊q⌋
    | _ => 1
  let idx := b - 1
  if idx ≤ 0 then 0
  else if m.measures.length ≤ idx.toNat then m.durationTicks
  else (m.measures.getD idx.toNat default).startTick

/-! ## Concrete `MidiTiming` instances named by the claims -/

/-- Round-trip instance: ppq 480, constant 30 bpm, 20000 ticks. -/
def T1 : MidiTiming := mkMidiTiming 480 20000 [⟨0, 30⟩] []

/-- Tempo-change instance: ppq 480, 120 bpm then 60 bpm from tick 1920. -/
def T5a : MidiTiming := mkMidiTiming 480 3840 [⟨0, 120⟩, ⟨1920, 60⟩] []

/-- Default-tempo instance: ppq 480, a single tempo event at tick 480. -/
def T5b : MidiTiming := mkMidiTiming 480 960 [⟨480, 60⟩] []

/-- Bar/beat instance: ppq 480, 4/4 for two bars then 3/4 from tick 3840. -/
def T6 : MidiTiming := mkMidiTiming 480 9600 [] [⟨0, (4, 4)⟩, ⟨3840, (3, 4)⟩]

theorem T1_eval : T1 =
    ⟨480, 20000, 250 / 3, [⟨0, 20000, 30, 0, 250 / 3⟩],
      [⟨0, (4, 4)⟩, ⟨1920, (4, 4)⟩, ⟨3840, (4, 4)⟩, ⟨5760, (4, 4)⟩, ⟨7680, (4, 4)⟩,
        ⟨9600, (4, 4)⟩, ⟨11520, (4, 4)⟩, ⟨13440, (4, 4)⟩, ⟨15360, (4, 4)⟩,
        ⟨17280, (4, 4)⟩, ⟨19200, (4, 4)⟩]⟩ := by
  norm_num [T1, mkMidiTiming, sanitizedTempos, sanitizedTimeSignatures,
    normalizeTempoEvents, normalizeTimeSignatureEvents, dedupTempos,
    List.insertionSort, List.orderedInsert, tempoTickLe, List.filter, List.map,
    buildTempoSegments, ticksToSecondsDelta, segmentsDurationSeconds,
    buildMeasures, buildMeasuresGo_step, buildMeasuresGo_exit, measuresFuel,
    ticksPerBeat]

theorem T5a_eval : T5a =
    ⟨480, 3840, 6, [⟨0, 1920, 120, 0, 2⟩, ⟨1920, 3840, 60, 2, 6⟩],
      [⟨0, (4, 4)⟩, ⟨1920, (4, 4)⟩, ⟨3840, (4, 4)⟩]⟩ := by
  norm_num [T5a, mkMidiTiming, sanitizedTempos, sanitizedTimeSignatures,
    normalizeTempoEvents, normalizeTimeSignatureEvents, dedupTempos,
    List.insertionSort, List.orderedInsert, tempoTickLe, List.filter, List.map,
    buildTempoSegments, ticksToSecondsDelta, segmentsDurationSeconds,
    buildMeasures, buildMeasuresGo_step, buildMeasuresGo_exit, measuresFuel,
    ticksPerBeat]

theorem T5b_eval : T5b =
    ⟨480, 960, 3 / 2, [⟨0, 480, 120, 0, 1 / 2⟩, ⟨480, 960, 60, 1 / 2, 3 / 2⟩],
      [⟨0, (4, 4)⟩]⟩ := by
  norm_num [T5b, mkMidiTiming, sanitizedTempos, sanitizedTimeSignatures,
    normalizeTempoEvents, normalizeTimeSignatureEvents, dedupTempos,
    List.insertionSort, List.orderedInsert, tempoTickLe, List.filter, List.map,
    buildTempoSegments, ticksToSecondsDelta, segmentsDurationSeconds,
    buildMeasures, buildMeasuresGo_step, buildMeasuresGo_exit, measuresFuel,
    ticksPerBeat]

theorem T6_eval : T6 =
    ⟨480, 9600, 10, [⟨0, 9600, 120, 0, 10⟩],
      [⟨0, (4, 4)⟩, ⟨1920, (4, 4)⟩, ⟨3840, (3, 4)⟩, ⟨5280, (3, 4)⟩, ⟨6720, (3, 4)⟩,
        ⟨8160, (3, 4)⟩, ⟨9600, (3, 4)⟩]⟩ := by
  norm_num [T6, mkMidiTiming, sanitizedTempos, sanitizedTimeSignatures,
    normalizeTempoEvents, normalizeTimeSignatureEvents, dedupTempos,
    dedupTimeSignatures, List.insertionSort, List.orderedInsert, tempoTickLe,
    tsTickLe, List.filter, List.map, buildTempoSegments, ticksToSecondsDelta,
    segmentsDurationSeconds, buildMeasures, buildMeasuresGo_step,
    buildMeasuresGo_exit, measuresFuel, ticksPerBeat]

/-! ## Helper lemmas for symbolic queries -/

theorem ubTick_single (s : TempoSegment) (q : ℚ) (h : s.startTick ≤ q) :
    upperBoundByStartTick [s] q = 1 := by
  unfold upperBoundByStartTick
  norm_num [upperBoundAux_le, upperBoundAux_done, h]

theorem ubSeconds_single (s : TempoSegment) (q : ℚ) (h : s.startSeconds ≤ q) :
    upperBoundByStartSeconds [s] q = 1 := by
  unfold upperBoundByStartSeconds
  norm_num [upperBoundAux_le, upperBoundAux_done, h]

/-! ## Claim theorems on `MidiTiming` -/

/-- Claim C1: for the `MidiTiming` built with ppq 480, a single 30 bpm tempo
and durationTicks 20000, `secondsToTicks (ticksToSeconds t) = t` for every
integer `t` in `[0, 20000]` (hence in particular for 0, 1, 2, 123, 245, 490,
999, 1000 and 12345); `secondsToTicks` floors its inverted value after
adding the `1e-6`-tick epsilon. -/
theorem roundTrip_constant_tempo (t : ℕ) (ht : t ≤ 20000) :
    secondsToTicks T1 (.num (ticksToSeconds T1 (.num t))) = (t : ℚ) := by
  have h0 : (0 : ℚ) ≤ (t : ℚ) := Nat.cast_nonneg t
  have h2 : (t : ℚ) ≤ 20000 := by exact_mod_cast ht
  have hts : ticksToSeconds T1 (.num t) = (t : ℚ) / 240 := by
    rw [T1_eval]
    simp only [ticksToSeconds, sanitizeInput]
    rw [min_eq_right h2, max_eq_right h0]
    rw [ubTick_single _ _ (by exact h0)]
    simp [ticksToSecondsDelta]
    ring
  rw [hts, T1_eval]
  simp only [secondsToTicks, sanitizeInput]
  have hA0 : (0 : ℚ) ≤ (t : ℚ) / 240 := by positivity
  have hA2 : (t : ℚ) / 240 ≤ 250 / 3 := by linarith
  rw [min_eq_right hA2, max_eq_right hA0]
  rw [ubSeconds_single _ _ (by exact hA0)]
  simp only [show (1 : ℕ) - 1 = 0 from rfl, List.getD_cons_zero, secondsToTicksDelta]
  have hfloor : ⌊(0 : ℚ) + ((t : ℚ) / 240 - 0) * 30 * 480 / 60 + 1 / 1000000⌋ = (t : ℤ) := by
    have harith : (0 : ℚ) + ((t : ℚ) / 240 - 0) * 30 * 480 / 60 + 1 / 1000000
        = ((t : ℤ) : ℚ) + 1 / 1000000 := by
      push_cast
      ring
    rw [harith, add_comm, Int.floor_add_int]
    norm_num
  rw [hfloor]
  rw [min_eq_right (by exact_mod_cast h2), max_eq_right (by exact_mod_cast h0)]
  push_cast
  ring

/-- Witness for C1 at the concrete input t = 12345. -/
theorem roundTrip_constant_tempo_witness :
    12345 ≤ 20000 ∧
      secondsToTicks T1 (.num (ticksToSeconds T1 (.num 12345))) = (12345 : ℚ) :=
  ⟨by norm_num, by
    have h := roundTrip_constant_tempo 12345 (by norm_num)
    simpa using h⟩

/-- Claim C5: concrete tick/second conversions.  With ppq 480 and tempos
`[{0,120},{1920,60}]` (instance `T5a`): `ticksToSeconds 1920 = 2`,
`ticksToSeconds 2400 = 3`, `secondsToTicks 2.5 = 2160`; with the single
tempo `[{480,60}]` (instance `T5b`) a default 120 bpm event is synthesized
at tick 0 so `ticksToSeconds 240 = 1/4`; NaN sanitizes to tick 0 and `+∞`
to `durationTicks` (for any `MidiTiming`, and concretely on `T5a`). -/
theorem ticksSeconds_conversion_examples :
    ticksToSeconds T5a (.num 1920) = 2 ∧
      ticksToSeconds T5a (.num 2400) = 3 ∧
      secondsToTicks T5a (.num (5 / 2)) = 2160 ∧
      ticksToSeconds T5b (.num 240) = 1 / 4 ∧
      ticksToSeconds T5a .nan = 0 ∧
      ticksToSeconds T5a .posInf = T5a.durationSeconds ∧
      (∀ m : MidiTiming, ticksToSeconds m .nan = ticksToSeconds m (.num 0)) ∧
      ∀ m : MidiTiming, ticksToSeconds m .posInf = ticksToSeconds m (.num m.durationTicks) := by
  refine ⟨?_, ?_, ?_, ?_, ?_, ?_, fun m => rfl, fun m => rfl⟩ <;>
    first
    | rw [T5b_eval]
    | rw [T5a_eval]
  all_goals
    norm_num [ticksToSeconds, secondsToTicks, sanitizeInput,
      upperBoundByStartTick, upperBoundByStartSeconds, upperBoundAux_le,
      upperBoundAux_gt, upperBoundAux_done, ticksToSecondsDelta,
      secondsToTicksDelta, List.getD_cons_zero, List.getD_cons_succ,
      Int.floor_eq_iff]

/-- Claim C6: bar/beat queries on the instance with 4/4 for two bars then
3/4 (`T6`): bar start ticks 0, 1920, 3840, 5280 for bars 1..4;
`getBarBeatAtTicks 2880 = {bar 2, beat 3}`; `getBarBeatAtTicks 4800 =
{bar 3, beat 3}`; a half-beat offset yields `subBeat1000 = 500`; NaN yields
`{bar 1, beat 1, subBeat1000 0}`; and for every timing with integral
`durationTicks ≥ 1`, querying exactly at `durationTicks` reports the
position of tick `durationTicks - 1` (end-exclusive). -/
theorem barBeat_end_exclusive (m : MidiTiming) (hD : 1 ≤ m.durationTicks) :
    getBarBeatAtTicks m (.num m.durationTicks) =
      getBarBeatAtTicks m (.num (m.durationTicks - 1)) := by
  simp only [getBarBeatAtTicks, sanitizeInput]
  have h0D : (0 : ℚ) ≤ m.durationTicks := by linarith
  rw [show max 0 (min m.durationTicks m.durationTicks) = m.durationTicks by
    rw [min_self]
    exact max_eq_right h0D]
  rw [show max 0 (min m.durationTicks (m.durationTicks - 1)) = m.durationTicks - 1 by
    rw [min_eq_right (by linarith)]
    exact max_eq_right (by linarith)]
  rw [if_pos ⟨by linarith, rfl⟩]
  rw [if_neg (show ¬(0 < m.durationTicks ∧ m.durationTicks - 1 = m.durationTicks) by
    intro hcontra
    have := hcontra.2
    linarith)]

theorem bar_beat_queries :
    getBarStartTick T6 (.num 1) = 0 ∧
      getBarStartTick T6 (.num 2) = 1920 ∧
      getBarStartTick T6 (.num 3) = 3840 ∧
      getBarStartTick T6 (.num 4) = 5280 ∧
      getBarBeatAtTicks T6 (.num 2880) = ⟨2, 3, 0, (4, 4)⟩ ∧
      getBarBeatAtTicks T6 (.num 4800) = ⟨3, 3, 0, (3, 4)⟩ ∧
      (getBarBeatAtTicks T6 (.num 240)).subBeat1000 = 500 ∧
      getBarBeatAtTicks T6 .nan = ⟨1, 1, 0, (4, 4)⟩ ∧
      ∀ m : MidiTiming, 1 ≤ m.durationTicks →
        getBarBeatAtTicks m (.num m.durationTicks) =
          getBarBeatAtTicks m (.num (m.durationTicks - 1)) := by
  refine ⟨?_, ?_, ?_, ?_, ?_, ?_, ?_, ?_, fun m hD => barBeat_end_exclusive m hD⟩
  all_goals
    rw [T6_eval]
    norm_num [getBarStartTick, getBarBeatAtTicks, sanitizeInput,
      upperBoundMeasureStart, upperBoundAux_le, upperBoundAux_gt,
      upperBoundAux_done, ticksPerBeat, Int.toNat_ofNat,
      show Int.toNat 2 = 2 from rfl, show Int.toNat 3 = 3 from rfl,
      List.getD_cons_zero, List.getD_cons_succ, Int.floor_eq_iff]

/-- Witness for the quantified end-exclusive component of C6, instantiated
at the concrete timing `T6`. -/
theorem bar_beat_queries_witness :
    1 ≤ T6.durationTicks ∧
      getBarBeatAtTicks T6 (.num T6.durationTicks) =
        getBarBeatAtTicks T6 (.num (T6.durationTicks - 1)) := by
  have h1 : (1 : ℚ) ≤ T6.durationTicks := by rw [T6_eval]; norm_num
  exact ⟨h1, bar_beat_queries.2.2.2.2.2.2.2.2 T6 h1⟩

/-! ## Claim C4: structural invariants of the tempo segments -/

/-- Adjacency relation of the segment invariant: each segment ends exactly
where the next one starts, in both the tick and the second domain. -/
def segLink (a b : TempoSegment) : Prop :=
  a.endTick = b.startTick ∧ a.endSeconds = b.startSeconds

theorem dedupTempos_cons (a : TempoEvent) (l : List TempoEvent) :
    ∃ x rest, dedupTempos (a :: l) = x :: rest ∧ x.ticks = a.ticks := by
  induction l generalizing a with
  | nil => exact ⟨a, [], rfl, rfl⟩
  | cons b r ih =>
    by_cases h : a.ticks = b.ticks
    · obtain ⟨x, rest, hx, ht⟩ := ih b
      refine ⟨x, rest, ?_, ?_⟩
      · simpa [dedupTempos, h] using hx
      · rw [ht, ← h]
    · exact ⟨a, dedupTempos (b :: r), by simp [dedupTempos, h], rfl⟩

theorem dedupTempos_subset :
    ∀ (l : List TempoEvent), ∀ x ∈ dedupTempos l, x ∈ l
  | [], x, hx => by simp [dedupTempos] at hx
  | [a], x, hx => by simpa [dedupTempos] using hx
  | a :: b :: r, x, hx => by
    by_cases h : a.ticks = b.ticks
    · have hx' : x ∈ dedupTempos (b :: r) := by simpa [dedupTempos, h] using hx
      have := dedupTempos_subset (b :: r) x hx'
      simp [this]
    · have hx' : x ∈ a :: dedupTempos (b :: r) := by simpa [dedupTempos, h] using hx
      rcases List.mem_cons.mp hx' with h1 | h2
      · simp [h1]
      · have := dedupTempos_subset (b :: r) x h2
        simp [this]

theorem dedupTempos_chain_lt :
    ∀ (l : List TempoEvent),
      List.Chain' (fun a b => a.ticks ≤ b.ticks) l →
      List.Chain' (fun a b => a.ticks < b.ticks) (dedupTempos l)
  | [], _ => by simp [dedupTempos]
  | [a], _ => by simp [dedupTempos]
  | a :: b :: r, h => by
    have hle : a.ticks ≤ b.ticks := (List.chain'_cons.mp h).1
    have htail : List.Chain' (fun a b => a.ticks ≤ b.ticks) (b :: r) :=
      (List.chain'_cons.mp h).2
    have hrec := dedupTempos_chain_lt (b :: r) htail
    by_cases hab : a.ticks = b.ticks
    · simpa [dedupTempos, hab] using hrec
    · obtain ⟨x, rest, hx, ht⟩ := dedupTempos_cons b r
      have hchain : List.Chain' (fun a b => a.ticks < b.ticks)
          (a :: dedupTempos (b :: r)) := by
        rw [hx]
        refine List.chain'_cons.mpr ⟨?_, by rwa [hx] at hrec⟩
        rw [ht]
        exact lt_of_le_of_ne hle hab
      simpa [dedupTempos, hab] using hchain

theorem normalizeTempoEvents_spec (l : List TempoEvent)
    (h0 : ∀ x ∈ l, 0 ≤ x.ticks)
    (hc : List.Chain' (fun a b => a.ticks ≤ b.ticks) l) :
    ∃ x rest, normalizeTempoEvents l = x :: rest ∧ x.ticks = 0 ∧
      List.Chain' (fun a b => a.ticks < b.ticks) (x :: rest) := by
  match l with
  | [] => exact ⟨⟨0, 120⟩, [], rfl, rfl, by simp⟩
  | a :: l' =>
    obtain ⟨x, rest, hx, ht⟩ := dedupTempos_cons a l'
    have hchain := dedupTempos_chain_lt (a :: l') hc
    rw [hx] at hchain
    by_cases hz : x.ticks = 0
    · refine ⟨x, rest, ?_, hz, hchain⟩
      simp only [normalizeTempoEvents, hx, List.headD_cons]
      rw [if_neg (by simpa using hz)]
    · have hxmem : x ∈ a :: l' := dedupTempos_subset (a :: l') x (by simp [hx])
      have hx0 : 0 ≤ x.ticks := h0 x hxmem
      have hxpos : 0 < x.ticks := lt_of_le_of_ne hx0 (Ne.symm hz)
      refine ⟨⟨0, 120⟩, x :: rest, ?_, rfl, ?_⟩
      · simp only [normalizeTempoEvents, hx, List.headD_cons]
        rw [if_pos (by simpa using hz)]
      · exact List.chain'_cons.mpr ⟨hxpos, hchain⟩

theorem buildTempoSegments_spec (ppq D : ℚ) (hD : 0 ≤ D) :
    ∀ (l : List TempoEvent) (cur : TempoEvent) (s0 : ℚ),
      cur.ticks ≤ D →
      List.Chain' (fun a b => a.ticks < b.ticks) (cur :: l) →
      ∃ s rest, buildTempoSegments ppq D (cur :: l) s0 = s :: rest ∧
        s.startTick = cur.ticks ∧ s.startSeconds = s0 ∧
        List.Chain' segLink (s :: rest) ∧
        ((s :: rest).getLastD default).endTick = D ∧
        ∀ u ∈ s :: rest, u.startTick ≤ u.endTick
  | [], cur, s0, hle, _ => by
    have hend : max cur.ticks (min D D) = D := by
      rw [min_self]
      exact max_eq_right hle
    refine ⟨⟨cur.ticks, max cur.ticks (min D D), cur.bpm, s0,
      s0 + ticksToSecondsDelta (max cur.ticks (min D D) - cur.ticks) cur.bpm ppq⟩,
      [], ?_, rfl, rfl, by simp, by simpa using hend, ?_⟩
    · rw [buildTempoSegments]
      simp only [List.head?]
      rw [if_pos (le_of_eq hend.symm)]
    · intro u hu
      simp only [List.mem_singleton] at hu
      subst hu
      simp only []
      rw [hend]
      exact hle
  | n :: l', cur, s0, hle, hchain => by
    have hlt : cur.ticks < n.ticks := (List.chain'_cons.mp hchain).1
    have htail : List.Chain' (fun a b => a.ticks < b.ticks) (n :: l') :=
      (List.chain'_cons.mp hchain).2
    set endTick := max cur.ticks (min n.ticks D) with hendTick
    have hendLe : endTick ≤ D := by
      rw [hendTick]
      exact max_le hle (min_le_right _ _)
    by_cases hbr : D ≤ endTick
    · have hendEq : endTick = D := le_antisymm hendLe hbr
      refine ⟨⟨cur.ticks, endTick, cur.bpm, s0,
        s0 + ticksToSecondsDelta (endTick - cur.ticks) cur.bpm ppq⟩, [], ?_, rfl, rfl,
        by simp, by simpa using hendEq, ?_⟩
      · rw [buildTempoSegments]
        simp only [List.head?]
        rw [if_pos hbr]
      · intro u hu
        simp only [List.mem_singleton] at hu
        subst hu
        simp only []
        rw [hendEq]
        exact hle
    · have hendLt : endTick < D := lt_of_le_of_ne hendLe (fun h => hbr (le_of_eq h.symm))
      have hnD : n.ticks ≤ D := by
        by_contra hn
        push_neg at hn
        have : endTick = D := by
          rw [hendTick, min_eq_right (le_of_lt hn)]
          exact max_eq_right hle
        exact hbr (le_of_eq this.symm)
      have hendN : endTick = n.ticks := by
        rw [hendTick, min_eq_left hnD]
        exact max_eq_right (le_of_lt hlt)
      obtain ⟨s', rest', hrec, hstart', hsec', hchain', hlast', hmono'⟩ :=
        buildTempoSegments_spec ppq D hD l' n
          (s0 + ticksToSecondsDelta (endTick - cur.ticks) cur.bpm ppq) hnD htail
      refine ⟨⟨cur.ticks, endTick, cur.bpm, s0,
        s0 + ticksToSecondsDelta (endTick - cur.ticks) cur.bpm ppq⟩, s' :: rest', ?_,
        rfl, rfl, ?_, ?_, ?_⟩
      · rw [buildTempoSegments]
        simp only [List.head?]
        rw [if_neg hbr]
        rw [← hendTick, hrec]
      · refine List.chain'_cons.mpr ⟨⟨?_, ?_⟩, hchain'⟩
        · rw [hstart', hendN]
        · rw [hsec']
      · simpa [List.getLastD_cons] using hlast'
      · intro u hu
        rcases List.mem_cons.mp hu with h1 | h2
        · subst h1
          simp only []
          rw [hendN]
          exact le_of_lt hlt
        · exact hmono' u h2

/-- Claim C4: for every constructor input, the derived tempo segments are a
nonempty chain that starts at tick 0 / second 0, in which each segment ends
exactly where the next begins (ticks and seconds), whose last segment ends
at `durationTicks`, and in which every segment satisfies
`startTick ≤ endTick` — i.e. the segments are contiguous, non-overlapping
and cover `[0, durationTicks]`.  (Immutability after construction holds by
construction in this purely functional model.) -/
theorem tempo_segments_invariant (ppq durationTicks : ℚ)
    (tempos : List TempoEvent) (tss : List TimeSignatureEvent) :
    (mkMidiTiming ppq durationTicks tempos tss).tempoSegments ≠ [] ∧
      ((mkMidiTiming ppq durationTicks tempos tss).tempoSegments.headD default).startTick = 0 ∧
      ((mkMidiTiming ppq durationTicks tempos tss).tempoSegments.headD default).startSeconds = 0 ∧
      List.Chain' segLink (mkMidiTiming ppq durationTicks tempos tss).tempoSegments ∧
      ((mkMidiTiming ppq durationTicks tempos tss).tempoSegments.getLastD default).endTick =
        (mkMidiTiming ppq durationTicks tempos tss).durationTicks ∧
      ∀ s ∈ (mkMidiTiming ppq durationTicks tempos tss).tempoSegments,
        s.startTick ≤ s.endTick := by
  have hm_segments : (mkMidiTiming ppq durationTicks tempos tss).tempoSegments =
      buildTempoSegments (if 0 < ppq then ppq else 480) (max 0 durationTicks)
        (sanitizedTempos tempos) 0 := rfl
  have hm_dur : (mkMidiTiming ppq durationTicks tempos tss).durationTicks =
      max 0 durationTicks := rfl
  have hD : (0 : ℚ) ≤ max 0 durationTicks := le_max_left 0 durationTicks
  have hsorted : List.Chain' (fun a b : TempoEvent => a.ticks ≤ b.ticks)
      (List.insertionSort tempoTickLe
        ((tempos.filter fun t => decide (0 ≤ t.ticks) && decide (0 < t.bpm)).map
          fun t => ⟨(⌊t.ticks⌋ : ℚ), t.bpm⟩)) :=
    List.Pairwise.chain' (List.sorted_insertionSort tempoTickLe _)
  have hmem : ∀ x ∈ (List.insertionSort tempoTickLe
      ((tempos.filter fun t => decide (0 ≤ t.ticks) && decide (0 < t.bpm)).map
        fun t => (⟨(⌊t.ticks⌋ : ℚ), t.bpm⟩ : TempoEvent))), 0 ≤ x.ticks := by
    intro x hx
    rw [List.mem_insertionSort] at hx
    obtain ⟨t, htmem, rfl⟩ := List.mem_map.mp hx
    have hfil := List.mem_filter.mp htmem
    have hb := hfil.2
    simp only [Bool.and_eq_true, decide_eq_true_eq] at hb
    show (0 : ℚ) ≤ ((⌊t.ticks⌋ : ℤ) : ℚ)
    exact_mod_cast Int.floor_nonneg.mpr hb.1
  obtain ⟨x, rest, hnorm, hx0, hchainlt⟩ := normalizeTempoEvents_spec _ hmem hsorted
  have hxD : x.ticks ≤ max 0 durationTicks := by
    rw [hx0]
    exact hD
  obtain ⟨s, srest, hbuild, hsstart, hssec, hchain, hlast, hmono⟩ :=
    buildTempoSegments_spec (if 0 < ppq then ppq else 480) (max 0 durationTicks)
      hD rest x 0 hxD hchainlt
  have hsegs : (mkMidiTiming ppq durationTicks tempos tss).tempoSegments = s :: srest := by
    rw [hm_segments]
    show buildTempoSegments _ _ (normalizeTempoEvents _) 0 = _
    rw [hnorm, hbuild]
  refine ⟨?_, ?_, ?_, ?_, ?_, ?_⟩
  · rw [hsegs]
    simp
  · rw [hsegs, List.headD_cons, hsstart, hx0]
  · rw [hsegs, List.headD_cons, hssec]
  · rw [hsegs]
    exact hchain
  · rw [hsegs, hm_dur]
    exact hlast
  · rw [hsegs]
    exact hmono

/-! ## `src/lib/webgpu/gpuDevice.ts` — automation compaction (`compactInPlace`) -/

/-- An automation point `{time, value}`. -/
structure TimeValue where
  time : ℚ
  value : ℚ
  deriving DecidableEq, Repr

instance : Inhabited TimeValue := ⟨⟨0, 0⟩⟩

/-- Comparator relation of `.sort((a, b) => a.time - b.time)`. -/
def timeLe (a b : TimeValue) : Prop := a.time ≤ b.time

instance : DecidableRel timeLe := fun a b =>
  inferInstanceAs (Decidable (a.time ≤ b.time))

instance : IsTotal TimeValue timeLe := ⟨fun a b => le_total a.time b.time⟩

instance : IsTrans TimeValue timeLe := ⟨fun _ _ _ h1 h2 => le_trans h1 h2⟩

/-- `Math.abs` on a finite number. -/
def jsAbs (q : ℚ) : ℚ := if q < 0 then -q else q

theorem jsAbs_eq (q : ℚ) : jsAbs q = |q| := by
  unfold jsAbs
  split
  · rw [abs_of_neg (by assumption)]
  · rw [abs_of_nonneg (by linarith [not_lt.mp (by assumption)])]

/-- The write-cursor loop of `compactInPlace`: `acc` holds the kept points
in reverse order (its head is `events[write - 1]`).  A point within
`valueEpsilon` of the previously kept value is skipped; a farther point
closer in time than `minIntervalSec` replaces the previously kept point
(latest value wins); otherwise the point is appended. -/
def compactGo (minIntervalSec valueEpsilon : ℚ) :
    List TimeValue → List TimeValue → List TimeValue
  | acc, [] => acc.reverse
  | [], e :: rest => compactGo minIntervalSec valueEpsilon [e] rest
  | prev :: accTail, e :: rest =>
    if jsAbs (e.value - prev.value) ≤ valueEpsilon then
      compactGo minIntervalSec valueEpsilon (prev :: accTail) rest
    else if e.time - prev.time < minIntervalSec then
      compactGo minIntervalSec valueEpsilon (e :: accTail) rest
    else compactGo minIntervalSec valueEpsilon (e :: prev :: accTail) rest

/-- `compactInPlace(events, minIntervalSec, valueEpsilon)`: no-op on at most
one point, otherwise sort by time (stable) and run the write-cursor loop. -/
def compactInPlace (minIntervalSec valueEpsilon : ℚ) (events : List TimeValue) :
    List TimeValue :=
  if events.length ≤ 1 then events
  else compactGo minIntervalSec valueEpsilon [] (List.insertionSort timeLe events)

/-- Ordering invariant carried by the compaction output: consecutive kept
points are at least `m` seconds apart. -/
def gapR (m : ℚ) (a b : TimeValue) : Prop := a.time + m ≤ b.time

theorem compactGo_mem (m ε : ℚ) :
    ∀ (rest acc : List TimeValue), ∀ x ∈ compactGo m ε acc rest,
      x ∈ acc ∨ x ∈ rest
  | [], acc, x, hx => by
    left
    simpa [compactGo] using hx
  | e :: rest, [], x, hx => by
    have := compactGo_mem m ε rest [e] x (by simpa [compactGo] using hx)
    rcases this with h1 | h2
    · right
      simp at h1
      simp [h1]
    · right
      simp [h2]
  | e :: rest, prev :: accTail, x, hx => by
    by_cases h1 : jsAbs (e.value - prev.value) ≤ ε
    · have := compactGo_mem m ε rest (prev :: accTail) x (by simpa [compactGo, h1] using hx)
      rcases this with ha | hb
      · exact Or.inl ha
      · exact Or.inr (List.mem_cons_of_mem e hb)
    · by_cases h2 : e.time - prev.time < m
      · have := compactGo_mem m ε rest (e :: accTail) x
          (by simpa [compactGo, h1, h2] using hx)
        rcases this with ha | hb
        · rcases List.mem_cons.mp ha with hc | hd
          · exact Or.inr (by simp [hc])
          · exact Or.inl (List.mem_cons_of_mem prev hd)
        · exact Or.inr (List.mem_cons_of_mem e hb)
      · have := compactGo_mem m ε rest (e :: prev :: accTail) x
          (by simpa [compactGo, h1, h2] using hx)
        rcases this with ha | hb
        · rcases List.mem_cons.mp ha with hc | hd
          · exact Or.inr (by simp [hc])
          · exact Or.inl hd
        · exact Or.inr (List.mem_cons_of_mem e hb)

theorem compactGo_chain (m ε : ℚ) :
    ∀ (rest acc : List TimeValue),
      List.Pairwise timeLe rest →
      (∀ p ∈ acc.head?, ∀ f ∈ rest, p.time ≤ f.time) →
      List.Chain' (fun a b => gapR m b a) acc →
      List.Chain' (gapR m) (compactGo m ε acc rest)
  | [], acc, _, _, hacc => by
    rw [compactGo]
    exact List.chain'_reverse.mpr hacc
  | e :: rest, [], hp, _, _ => by
    rw [compactGo]
    exact compactGo_chain m ε rest [e] hp.of_cons
      (by
        intro p hp'
        simp at hp'
        intro f hf
        subst hp'
        exact List.rel_of_pairwise_cons hp hf)
      (by simp)
  | e :: rest, prev :: accTail, hp, hbridge, hacc => by
    have hprevE : prev.time ≤ e.time := hbridge prev (by simp) e (by simp)
    have hbridge' : ∀ f ∈ rest, prev.time ≤ f.time := by
      intro f hf
      exact hbridge prev (by simp) f (by simp [hf])
    by_cases h1 : jsAbs (e.value - prev.value) ≤ ε
    · rw [compactGo, if_pos h1]
      exact compactGo_chain m ε rest (prev :: accTail) hp.of_cons
        (by
          intro p hp'
          simp at hp'
          subst hp'
          exact hbridge') hacc
    · by_cases h2 : e.time - prev.time < m
      · rw [compactGo, if_neg h1, if_pos h2]
        refine compactGo_chain m ε rest (e :: accTail) hp.of_cons ?_ ?_
        · intro p hp'
          simp at hp'
          subst hp'
          intro f hf
          exact List.rel_of_pairwise_cons hp hf
        · cases accTail with
          | nil => simp
          | cons y t =>
            have hlink : y.time + m ≤ prev.time := (List.chain'_cons.mp hacc).1
            exact List.chain'_cons.mpr
              ⟨le_trans hlink hprevE, (List.chain'_cons.mp hacc).2⟩
      · rw [compactGo, if_neg h1, if_neg h2]
        refine compactGo_chain m ε rest (e :: prev :: accTail) hp.of_cons ?_ ?_
        · intro p hp'
          simp at hp'
          subst hp'
          intro f hf
          exact List.rel_of_pairwise_cons hp hf
        · exact List.chain'_cons.mpr ⟨by
            show prev.time + m ≤ e.time
            linarith [not_lt.mp h2], hacc⟩

theorem chain_gap_length_aux (m lo hi : ℚ) :
    ∀ (l : List TimeValue) (a : TimeValue),
      List.Chain' (gapR m) (a :: l) →
      (∀ x ∈ a :: l, lo ≤ x.time ∧ x.time ≤ hi) →
      (l.length : ℚ) * m ≤ hi - a.time := by
  intro l
  induction l with
  | nil =>
    intro a _ hb
    have := (hb a (by simp)).2
    simp
    linarith
  | cons b t ih =>
    intro a hc hb
    have hab : a.time + m ≤ b.time := (List.chain'_cons.mp hc).1
    have hrec := ih b (List.chain'_cons.mp hc).2
      (fun x hx => hb x (List.mem_cons_of_mem a hx))
    simp only [List.length_cons]
    push_cast
    linarith

theorem compactInPlace_length_bound (m ε lo hi : ℚ) (events : List TimeValue)
    (hm : 0 < m) (hlohi : lo ≤ hi)
    (hbounds : ∀ e ∈ events, lo ≤ e.time ∧ e.time ≤ hi) :
    ((compactInPlace m ε events).length : ℚ) ≤ (hi - lo) / m + 1 := by
  unfold compactInPlace
  split
  · rename_i hlen
    have : (events.length : ℚ) ≤ 1 := by exact_mod_cast hlen
    have : (0 : ℚ) ≤ (hi - lo) / m := div_nonneg (by linarith) (le_of_lt hm)
    linarith
  · have hsortedPW : List.Pairwise timeLe (List.insertionSort timeLe events) :=
      List.sorted_insertionSort timeLe events
    have hchain := compactGo_chain m ε (List.insertionSort timeLe events) []
      hsortedPW (by simp) (by simp)
    have hmem : ∀ x ∈ compactGo m ε [] (List.insertionSort timeLe events),
        lo ≤ x.time ∧ x.time ≤ hi := by
      intro x hx
      rcases compactGo_mem m ε _ _ x hx with ha | hb
      · simp at ha
      · exact hbounds x (by rwa [List.mem_insertionSort] at hb)
    cases hout : compactGo m ε [] (List.insertionSort timeLe events) with
    | nil =>
      have h0 : (0 : ℚ) ≤ (hi - lo) / m := div_nonneg (by linarith) (le_of_lt hm)
      simp only [hout, List.length_nil]
      push_cast
      linarith
    | cons a t =>
      rw [hout] at hchain hmem
      have := chain_gap_length_aux m lo hi t a hchain hmem
      have ha := hmem a (by simp)
      have hlen : (t.length : ℚ) * m ≤ hi - lo := by linarith [ha.1]
      have hlen2 : (t.length : ℚ) ≤ (hi - lo) / m := by
        rw [le_div_iff₀ hm]
        exact hlen
      simp only [List.length_cons]
      push_cast
      linarith

theorem jsAbs_sub_comm (a b : ℚ) : jsAbs (a - b) = jsAbs (b - a) := by
  rw [jsAbs_eq, jsAbs_eq, abs_sub_comm]

theorem compactGo_last_value (m ε : ℚ) (hε : 0 ≤ ε) :
    ∀ (rest : List TimeValue) (prev : TimeValue) (accTail : List TimeValue),
      compactGo m ε (prev :: accTail) rest ≠ [] ∧
        jsAbs (((compactGo m ε (prev :: accTail) rest).getLastD default).value -
          ((prev :: rest).getLastD default).value) ≤ ε
  | [], prev, accTail => by
    rw [compactGo]
    refine ⟨by simp, ?_⟩
    have hlast : (prev :: accTail).reverse.getLastD default = prev := by simp
    rw [hlast]
    simpa [jsAbs] using hε
  | e :: rest', prev, accTail => by
    by_cases h1 : jsAbs (e.value - prev.value) ≤ ε
    · rw [compactGo, if_pos h1]
      cases rest' with
      | nil =>
        rw [compactGo]
        refine ⟨by simp, ?_⟩
        have hlast : (prev :: accTail).reverse.getLastD default = prev := by simp
        have htar : (prev :: [e]).getLastD default = e := by
          simp [List.getLastD_cons]
        rw [hlast, htar, jsAbs_sub_comm]
        exact h1
      | cons f rest'' =>
        have IH := compactGo_last_value m ε hε (f :: rest'') prev accTail
        refine ⟨IH.1, ?_⟩
        have heq : (prev :: e :: f :: rest'').getLastD default =
            (prev :: f :: rest'').getLastD default := by
          simp [List.getLastD_cons]
        rw [heq]
        exact IH.2
    · by_cases h2 : e.time - prev.time < m
      · rw [compactGo, if_neg h1, if_pos h2]
        have IH := compactGo_last_value m ε hε rest' e accTail
        refine ⟨IH.1, ?_⟩
        have heq : (prev :: e :: rest').getLastD default =
            (e :: rest').getLastD default := by
          simp [List.getLastD_cons]
        rw [heq]
        exact IH.2
      · rw [compactGo, if_neg h1, if_neg h2]
        have IH := compactGo_last_value m ε hε rest' e (prev :: accTail)
        refine ⟨IH.1, ?_⟩
        have heq : (prev :: e :: rest').getLastD default =
            (e :: rest').getLastD default := by
          simp [List.getLastD_cons]
        rw [heq]
        exact IH.2

theorem compactInPlace_preserves_last (m ε : ℚ) (events : List TimeValue)
    (hε : 0 ≤ ε) (hne : events ≠ []) (hsorted : List.Sorted timeLe events) :
    compactInPlace m ε events ≠ [] ∧
      jsAbs (((compactInPlace m ε events).getLastD default).value -
        (events.getLastD default).value) ≤ ε := by
  unfold compactInPlace
  split
  · refine ⟨hne, ?_⟩
    simpa [jsAbs] using hε
  · rw [List.Sorted.insertionSort_eq hsorted]
    cases events with
    | nil => exact absurd rfl hne
    | cons a t =>
      have h0 : compactGo m ε [] (a :: t) = compactGo m ε [a] t := rfl
      rw [h0]
      exact compactGo_last_value m ε hε t a []

/-! ## `gpuDevice.ts` — channel state, RPN derivation and callbacks -/

/-- `AudioMode = 'midi' | 'external'`. -/
inductive AudioMode where
  | midi : AudioMode
  | external : AudioMode
  deriving DecidableEq, Repr

/-- Per-channel mutable `ChannelState`.  The JS `Set` `sustainedNotes` is an
insertion-ordered list without duplicates. -/
structure ChannelState where
  pitchBendRangeSemitones : ℚ
  pitchBendValue : ℚ
  modWheel : ℚ
  aftertouch : ℚ
  tremolo : ℚ
  volume : ℚ
  expression : ℚ
  pan : ℚ
  sustainDown : Bool
  sustainedNotes : List ℕ
  deriving DecidableEq, Repr

def DEFAULT_PITCH_BEND_RANGE_SEMITONES : ℚ := 2

/-- The state a channel is created with and reset to on every `playFrom`. -/
def defaultChannelState : ChannelState :=
  ⟨DEFAULT_PITCH_BEND_RANGE_SEMITONES, 0, 0, 0, 0, 1, 1, 0, false, []⟩

/-- Value of the `panVol.volume` node (a dB quantity).  `20·log10 g` is
irrational, so it is represented symbolically: `db x` is a raw dB number and
`dbOfGain g` denotes `20·log10 g`. -/
inductive VolDb where
  | db (x : ℚ) : VolDb
  | dbOfGain (g : ℚ) : VolDb
  deriving DecidableEq, Repr

/-- `linearGainToDb`: clamp the gain to [0,1]; −80 dB at or below the `1e-5`
floor, otherwise `20·log10` of the clamped gain (kept symbolic). -/
def linearGainToDb (gain : ℚ) : VolDb :=
  let g := max 0 (min 1 gain)
  if g ≤ 1 / 100000 then .db (-80) else .dbOfGain g

/-- A channel's `ChannelFx`: the mutable state plus the node parameters the
apply-callbacks write (synth detune in cents, vibrato depth, tremolo depth,
pan, volume).  Frequencies passed to the synth are the fixed injective image
`midiToFreq` of the pitch, so actions record pitches. -/
structure ChannelFx where
  state : ChannelState
  detune : ℚ
  vibratoDepth : ℚ
  tremoloDepth : ℚ
  panNode : ℚ
  volumeNode : VolDb
  deriving DecidableEq, Repr

/-- A freshly created channel (`getOrCreateChannelFx`): default state,
zero-depth nodes, pan 0, volume 0 dB, detune 0. -/
def freshChannelFx : ChannelFx := ⟨defaultChannelState, 0, 0, 0, 0, .db 0⟩

/-- An audible side effect emitted by a fired callback. -/
inductive SoundAction where
  | attack (midi : ℕ) (velocity : ℚ) (time : ℚ) : SoundAction
  | release (midi : ℕ) (time : ℚ) : SoundAction
  | drumHit (midi : ℕ) (velocity : ℚ) (time : ℚ) : SoundAction
  deriving DecidableEq, Repr

/-- JS `Set.add`: append unless already present. -/
def setAdd (s : List ℕ) (x : ℕ) : List ℕ := if x ∈ s then s else s ++ [x]

/-- `applyPitchBend`: write `pitchBendValue × pitchBendRangeSemitones × 100`
cents to the synth detune. -/
def applyPitchBendFx (fx : ChannelFx) : ChannelFx :=
  { fx with detune := fx.state.pitchBendValue * fx.state.pitchBendRangeSemitones * 100 }

/-- `applyVibrato`: vibrato depth is the clamped max of mod wheel and
aftertouch. -/
def applyVibratoFx (fx : ChannelFx) : ChannelFx :=
  { fx with vibratoDepth := clamp01 (max fx.state.modWheel fx.state.aftertouch) }

/-- `applyVolume`: volume node is `linearGainToDb (volume × expression)`. -/
def applyVolumeFx (fx : ChannelFx) : ChannelFx :=
  { fx with volumeNode := linearGainToDb (fx.state.volume * fx.state.expression) }

/-- The nine automation streams scheduled per channel. -/
inductive AutoKind where
  | range : AutoKind
  | pitchBend : AutoKind
  | modWheel : AutoKind
  | aftertouch : AutoKind
  | tremolo : AutoKind
  | volume : AutoKind
  | expression : AutoKind
  | pan : AutoKind
  | sustain : AutoKind
  deriving DecidableEq, Repr

/-- The per-stream apply closures of `scheduleMidiAutomation`, acting on a
channel's `ChannelFx`.  None of them re-checks the playback mode or the
generation counter.  Only the sustain handler emits sound: on the down→up
transition it releases every sustained pitch at the callback time and clears
the set. -/
def applyAuto (k : AutoKind) (fx : ChannelFx) (time v : ℚ) :
    ChannelFx × List SoundAction :=
  match k with
  | .range =>
    (applyPitchBendFx
      { fx with state := { fx.state with pitchBendRangeSemitones := max 0 v } }, [])
  | .pitchBend =>
    (applyPitchBendFx { fx with state := { fx.state with pitchBendValue := clamp11 v } }, [])
  | .modWheel =>
    (applyVibratoFx { fx with state := { fx.state with modWheel := clamp01 v } }, [])
  | .aftertouch =>
    (applyVibratoFx { fx with state := { fx.state with aftertouch := clamp01 v } }, [])
  | .tremolo =>
    let fx1 := { fx with state := { fx.state with tremolo := clamp01 v } }
    ({ fx1 with tremoloDepth := fx1.state.tremolo }, [])
  | .volume =>
    (applyVolumeFx { fx with state := { fx.state with volume := clamp01 v } }, [])
  | .expression =>
    (applyVolumeFx { fx with state := { fx.state with expression := clamp01 v } }, [])
  | .pan =>
    let fx1 := { fx with state := { fx.state with pan := clamp11 (v * 2 - 1) } }
    ({ fx1 with panNode := fx1.state.pan }, [])
  | .sustain =>
    let down := if (1 : ℚ) / 2 ≤ v then true else false
    let wasDown := fx.state.sustainDown
    if wasDown = true ∧ down = false then
      ({ fx with state := { fx.state with sustainDown := down, sustainedNotes := [] } },
        fx.state.sustainedNotes.map fun midi => .release midi time)
    else
      ({ fx with state := { fx.state with sustainDown := down } }, [])

/-- The note-on callback body of `scheduleMidiNotes` (after its mode check):
a pitch currently held only by sustain is force-released and removed from
the set before the new attack. -/
def noteAttackFx (fx : ChannelFx) (midi : ℕ) (velocity time : ℚ) :
    ChannelFx × List SoundAction :=
  if midi ∈ fx.state.sustainedNotes then
    ({ fx with state :=
        { fx.state with sustainedNotes := fx.state.sustainedNotes.erase midi } },
      [.release midi time, .attack midi velocity time])
  else (fx, [.attack midi velocity time])

/-- The note-off callback body of `scheduleMidiNotes` (after its mode
check): while the pedal is down the pitch is added to `sustainedNotes`
instead of being released. -/
def noteReleaseFx (fx : ChannelFx) (midi : ℕ) (time : ℚ) :
    ChannelFx × List SoundAction :=
  if fx.state.sustainDown then
    ({ fx with state :=
        { fx.state with sustainedNotes := setAdd fx.state.sustainedNotes midi } }, [])
  else (fx, [.release midi time])

/-! ### RPN pitch-bend-range derivation (`derivePitchBendRange`) -/

/-- A controller event `{time, controller, value}` in the merged RPN stream. -/
structure CcEv where
  time : ℚ
  controller : ℕ
  value : ℚ
  deriving DecidableEq, Repr

/-- Tie-break priority: selector MSB (101), selector LSB (100), data-entry
MSB (6), data-entry LSB (38), then everything else. -/
def rpnPriority (cc : ℕ) : ℕ :=
  if cc = 101 then 0 else if cc = 100 then 1 else if cc = 6 then 2
  else if cc = 38 then 3 else 4

/-- Comparator relation of
`.sort((a, b) => a.time - b.time || priority(a) - priority(b))`. -/
def rpnLe (a b : CcEv) : Prop :=
  a.time < b.time ∨ (a.time = b.time ∧ rpnPriority a.controller ≤ rpnPriority b.controller)

instance : DecidableRel rpnLe := fun a b =>
  inferInstanceAs (Decidable (a.time < b.time ∨
    (a.time = b.time ∧ rpnPriority a.controller ≤ rpnPriority b.controller)))

instance : IsTotal CcEv rpnLe :=
  ⟨fun a b => by
    rcases lt_trichotomy a.time b.time with h | h | h
    · exact Or.inl (Or.inl h)
    · rcases le_total (rpnPriority a.controller) (rpnPriority b.controller) with hp | hp
      · exact Or.inl (Or.inr ⟨h, hp⟩)
      · exact Or.inr (Or.inr ⟨h.symm, hp⟩)
    · exact Or.inr (Or.inl h)⟩

instance : IsTrans CcEv rpnLe :=
  ⟨fun a b c hab hbc => by
    rcases hab with h1 | ⟨h1, p1⟩
    · rcases hbc with h2 | ⟨h2, _⟩
      · exact Or.inl (lt_trans h1 h2)
      · exact Or.inl (h2 ▸ h1)
    · rcases hbc with h2 | ⟨h2, p2⟩
      · exact Or.inl (h1 ▸ h2)
      · exact Or.inr ⟨h1.trans h2, le_trans p1 p2⟩⟩

/-- The fold state of `derivePitchBendRange`. -/
structure RpnState where
  rpnMsb : ℤ
  rpnLsb : ℤ
  semitones : ℚ
  cents : ℚ
  out : List TimeValue
  deriving DecidableEq, Repr

/-- Initial fold state: selector `(127, 127)` — not `(0, 0)` — range 2
semitones, 0 cents, no output. -/
def rpnInit : RpnState := ⟨127, 127, DEFAULT_PITCH_BEND_RANGE_SEMITONES, 0, []⟩

/-- The 7-bit requantization `Math.max(0, Math.min(127, Math.round(v*127)))`. -/
def rpnV7 (value : ℚ) : ℤ := max 0 (min 127 (jsRound (value * 127)))

/-- One iteration of the `derivePitchBendRange` loop: selector bytes update
the RPN address; data-entry bytes change the range (and emit an output
point) only while the selector pair is `(0, 0)`. -/
def rpnStep (st : RpnState) (e : CcEv) : RpnState :=
  let v7 := rpnV7 e.value
  if e.controller = 101 then { st with rpnMsb := v7 }
  else if e.controller = 100 then { st with rpnLsb := v7 }
  else if st.rpnMsb = 0 ∧ st.rpnLsb = 0 then
    if e.controller = 6 then
      { st with
        semitones := (v7 : ℚ)
        out := st.out ++ [⟨e.time, (v7 : ℚ) + st.cents / 100⟩] }
    else if e.controller = 38 then
      { st with
        cents := (v7 : ℚ)
        out := st.out ++ [⟨e.time, st.semitones + (v7 : ℚ) / 100⟩] }
    else st
  else st

/-- `derivePitchBendRange`: merge-sort the four controller streams by
`(time, priority)` and fold `rpnStep` from `rpnInit`. -/
def derivePitchBendRange (events : List CcEv) : List TimeValue :=
  if events.length = 0 then []
  else ((List.insertionSort rpnLe events).foldl rpnStep rpnInit).out

/-! ### The engine: parsed-data records, scheduling, transport -/

/-- `MidiNote` from the parsed sequence (read-only to the engine). -/
structure MidiNoteM where
  midi : ℕ
  velocity : ℚ
  ticks : ℚ
  durationTicks : ℚ
  endTicks : ℚ
  time : ℚ
  duration : ℚ
  endTime : ℚ
  deriving DecidableEq, Repr

/-- `MidiPitchBendEvent {ticks, time, value}`. -/
structure PitchBendEv where
  ticks : ℚ
  time : ℚ
  value : ℚ
  deriving DecidableEq, Repr

/-- `MidiControlChangeEvent {controller, ticks, time, value}`. -/
structure CcFullEv where
  controller : ℕ
  ticks : ℚ
  time : ℚ
  value : ℚ
  deriving DecidableEq, Repr

/-- `MidiChannelAftertouchEvent {channel, ticks, time, value}`. -/
structure ChAftEv where
  channel : ℚ
  ticks : ℚ
  time : ℚ
  value : ℚ
  deriving DecidableEq, Repr

/-- `MidiNoteAftertouchEvent {channel, ticks, time, midi, value}`. -/
structure NoteAftEv where
  channel : ℚ
  ticks : ℚ
  time : ℚ
  midi : ℕ
  value : ℚ
  deriving DecidableEq, Repr

/-- A parsed `MidiTrack` as consumed by the engine. -/
structure MidiTrackM where
  channel : ℚ
  isDrum : Bool
  notes : List MidiNoteM
  pitchBends : List PitchBendEv
  controlChanges : List CcFullEv
  channelAftertouch : List ChAftEv
  noteAftertouch : List NoteAftEv
  deriving DecidableEq, Repr

/-- Channel-key sanitization used by `getOrCreateChannelFx` and `entryFor`:
`Number.isFinite(ch) ? Math.max(0, Math.min(15, ch | 0)) : 0` (finite over
ℚ). -/
def sanitizeChannel (ch : ℚ) : ℕ := (max 0 (min 15 (jsTrunc ch))).toNat

/-- The per-channel `Entry` of gathered automation streams. -/
structure Entry where
  pitchBends : List TimeValue
  modWheel : List TimeValue
  aftertouch : List TimeValue
  tremolo : List TimeValue
  volume : List TimeValue
  expression : List TimeValue
  pan : List TimeValue
  sustain : List TimeValue
  rpn : List CcEv
  deriving DecidableEq, Repr

def emptyEntry : Entry := ⟨[], [], [], [], [], [], [], [], []⟩

/-- Update a channel's entry in the insertion-ordered `byChannel` map,
creating it at the end when missing (the behaviour of `entryFor` on a JS
`Map`). -/
def entryUpd (m : List (ℕ × Entry)) (key : ℕ) (f : Entry → Entry) :
    List (ℕ × Entry) :=
  match m with
  | [] => [(key, f emptyEntry)]
  | (k, e) :: rest =>
    if k = key then (k, f e) :: rest else (k, e) :: entryUpd rest key f

/-- Dispatch of one control-change event in the gathering loop. -/
def gatherCcEvent (ch : ℕ) (acc : List (ℕ × Entry)) (cc : CcFullEv) :
    List (ℕ × Entry) :=
  if cc.controller = 1 then
    entryUpd acc ch fun e => { e with modWheel := e.modWheel ++ [⟨cc.time, cc.value⟩] }
  else if cc.controller = 92 then
    entryUpd acc ch fun e => { e with tremolo := e.tremolo ++ [⟨cc.time, cc.value⟩] }
  else if cc.controller = 7 then
    entryUpd acc ch fun e => { e with volume := e.volume ++ [⟨cc.time, cc.value⟩] }
  else if cc.controller = 11 then
    entryUpd acc ch fun e => { e with expression := e.expression ++ [⟨cc.time, cc.value⟩] }
  else if cc.controller = 10 then
    entryUpd acc ch fun e => { e with pan := e.pan ++ [⟨cc.time, cc.value⟩] }
  else if cc.controller = 64 then
    entryUpd acc ch fun e => { e with sustain := e.sustain ++ [⟨cc.time, cc.value⟩] }
  else if cc.controller = 101 ∨ cc.controller = 100 ∨ cc.controller = 6 ∨
      cc.controller = 38 then
    entryUpd acc ch fun e => { e with rpn := e.rpn ++ [⟨cc.time, cc.controller, cc.value⟩] }
  else acc

/-- Gather one track's events into the `byChannel` map: for a non-drum
track, `entryFor(tr.channel)` is called once (creating the entry) and the
pitch-bend and control-change streams are pushed; for every track both
aftertouch streams are pushed onto their own channels' entries. -/
def gatherTrack (m : List (ℕ × Entry)) (tr : MidiTrackM) : List (ℕ × Entry) :=
  let m1 :=
    if tr.isDrum then m
    else
      let ch := sanitizeChannel tr.channel
      let m0 := entryUpd m ch id
      let mPb := tr.pitchBends.foldl
        (fun acc pb =>
          entryUpd acc ch fun e => { e with pitchBends := e.pitchBends ++ [⟨pb.time, pb.value⟩] })
        m0
      tr.controlChanges.foldl (gatherCcEvent ch) mPb
  let m2 := tr.channelAftertouch.foldl
    (fun acc ev =>
      entryUpd acc (sanitizeChannel ev.channel) fun e =>
        { e with aftertouch := e.aftertouch ++ [⟨ev.time, ev.value⟩] })
    m1
  tr.noteAftertouch.foldl
    (fun acc ev =>
      entryUpd acc (sanitizeChannel ev.channel) fun e =>
        { e with aftertouch := e.aftertouch ++ [⟨ev.time, ev.value⟩] })
    m2

/-- The `byChannel` map gathered across all tracks, in insertion order. -/
def gatherEntries (tracks : List MidiTrackM) : List (ℕ × Entry) :=
  tracks.foldl gatherTrack []

/-- A one-shot callback registered with `transport.scheduleOnce`, keyed by
its absolute time. -/
inductive CallbackKind where
  | auto (k : AutoKind) (value : ℚ) : CallbackKind
  | noteAttack (midi : ℕ) (velocity : ℚ) : CallbackKind
  | noteRelease (midi : ℕ) : CallbackKind
  | drumTrigger (midi : ℕ) (velocity : ℚ) : CallbackKind
  deriving DecidableEq, Repr

structure PendingCb where
  time : ℚ
  channel : ℕ
  kind : CallbackKind
  deriving DecidableEq, Repr

/-- `scheduleLatestAndFuture` for one stream: compact (or just sort) the
events, apply the latest value at-or-before the resume point synchronously
(at `now`), and register one-shot callbacks for every strictly future event.
The sound actions of the synchronous apply are not recorded here: right
after the reset no sustained notes exist, so the only action-capable stream
(sustain) emits none. -/
def scheduleLatestAndFutureM (start now : ℚ) (ch : ℕ) (k : AutoKind)
    (events : List TimeValue) (compact : Option (ℚ × ℚ)) (fx : ChannelFx) :
    ChannelFx × List PendingCb :=
  if events.length = 0 then (fx, [])
  else
    let evs := match compact with
      | some mi => compactInPlace mi.1 mi.2 events
      | none => List.insertionSort timeLe events
    let latest := (evs.takeWhile fun e => e.time ≤ start).getLast?
    let fx1 := match latest with
      | some e => (applyAuto k fx now e.value).1
      | none => fx
    (fx1, (evs.filter fun e => ¬ e.time ≤ start).map fun e => ⟨e.time, ch, .auto k e.value⟩)

/-- The per-channel state/node reset performed at the top of the
`byChannel` loop. -/
def resetChannelFx (_fx : ChannelFx) : ChannelFx :=
  ⟨defaultChannelState, 0, 0, 0, 0, .db 0⟩

/-- The body of the `byChannel` loop of `scheduleMidiAutomation`: reset,
then schedule the nine streams in source order. -/
def processChannelEntry (start now : ℚ) (ch : ℕ) (entry : Entry)
    (fx0 : ChannelFx) : ChannelFx × List PendingCb :=
  let fxR := resetChannelFx fx0
  let r1 := scheduleLatestAndFutureM start now ch .range
    (derivePitchBendRange entry.rpn) none fxR
  let r2 := scheduleLatestAndFutureM start now ch .pitchBend entry.pitchBends
    (some (1 / 60, 1 / 8192)) r1.1
  let r3 := scheduleLatestAndFutureM start now ch .modWheel entry.modWheel
    (some (1 / 30, 1 / 127)) r2.1
  let r4 := scheduleLatestAndFutureM start now ch .aftertouch entry.aftertouch
    (some (1 / 30, 1 / 127)) r3.1
  let r5 := scheduleLatestAndFutureM start now ch .tremolo entry.tremolo
    (some (1 / 30, 1 / 127)) r4.1
  let r6 := scheduleLatestAndFutureM start now ch .volume entry.volume
    (some (1 / 30, 1 / 127)) r5.1
  let r7 := scheduleLatestAndFutureM start now ch .expression entry.expression
    (some (1 / 30, 1 / 127)) r6.1
  let r8 := scheduleLatestAndFutureM start now ch .pan entry.pan
    (some (1 / 30, 1 / 127)) r7.1
  let r9 := scheduleLatestAndFutureM start now ch .sustain entry.sustain none r8.1
  (r9.1, r1.2 ++ r2.2 ++ r3.2 ++ r4.2 ++ r5.2 ++ r6.2 ++ r7.2 ++ r8.2 ++ r9.2)

/-- External-audio configuration (content identity elided; only the user
offset influences engine state here). -/
structure ExternalAudioCfg where
  offsetMs : ℚ
  deriving DecidableEq, Repr

inductive TransportState where
  | started : TransportState
  | stopped : TransportState
  | paused : TransportState
  deriving DecidableEq, Repr

/-- The `AudioEngine` state visible to this model. -/
structure Engine where
  disposed : Bool
  playGeneration : ℕ
  audioMode : AudioMode
  transportState : TransportState
  transportSeconds : ℚ
  outputGain : ℚ
  pending : List PendingCb
  channels : List (ℕ × ChannelFx)
  externalAudio : Option ExternalAudioCfg
  externalPlayerLoaded : Bool
  externalStart : Option (ℚ × ℚ)
  tracks : List MidiTrackM
  deriving DecidableEq, Repr

def lookupChannelFx : List (ℕ × ChannelFx) → ℕ → Option ChannelFx
  | [], _ => none
  | (k, f) :: rest, ch => if k = ch then some f else lookupChannelFx rest ch

def setChannelFx : List (ℕ × ChannelFx) → ℕ → ChannelFx → List (ℕ × ChannelFx)
  | [], ch, fx => [(ch, fx)]
  | (k, f) :: rest, ch, fx =>
    if k = ch then (k, fx) :: rest else (k, f) :: setChannelFx rest ch fx

/-- `getOrCreateChannelFx` on the channel map (insertion at the end). -/
def ensureChannel (chans : List (ℕ × ChannelFx)) (ch : ℕ) : List (ℕ × ChannelFx) :=
  match lookupChannelFx chans ch with
  | some _ => chans
  | none => chans ++ [(ch, freshChannelFx)]

/-- Firing a scheduled one-shot callback.  Automation appliers mutate the
channel unconditionally (the source closures re-check nothing); note and
drum callbacks are no-ops unless the engine is still in `'midi'` mode (they
do not consult the generation counter). -/
def fireCallback (e : Engine) (cb : PendingCb) : Engine × List SoundAction :=
  match cb.kind with
  | .auto k v =>
    let fx := (lookupChannelFx e.channels cb.channel).getD freshChannelFx
    let r := applyAuto k fx cb.time v
    ({ e with channels := setChannelFx e.channels cb.channel r.1 }, r.2)
  | .noteAttack midi vel =>
    if e.audioMode ≠ .midi then (e, [])
    else
      let fx := (lookupChannelFx e.channels cb.channel).getD freshChannelFx
      let r := noteAttackFx fx midi vel cb.time
      ({ e with channels := setChannelFx e.channels cb.channel r.1 }, r.2)
  | .noteRelease midi =>
    if e.audioMode ≠ .midi then (e, [])
    else
      let fx := (lookupChannelFx e.channels cb.channel).getD freshChannelFx
      let r := noteReleaseFx fx midi cb.time
      ({ e with channels := setChannelFx e.channels cb.channel r.1 }, r.2)
  | .drumTrigger midi vel =>
    if e.audioMode ≠ .midi then (e, [])
    else (e, [.drumHit midi vel cb.time])

/-- Fire a list of callbacks in order, accumulating their sound actions. -/
def runCallbacks (e : Engine) (cbs : List PendingCb) : Engine × List SoundAction :=
  cbs.foldl
    (fun acc cb =>
      let r := fireCallback acc.1 cb
      (r.1, acc.2 ++ r.2))
    (e, [])

/-- The per-note body of `scheduleMidiNotes`: fully elapsed notes are
skipped; a note already sounding at the resume point attacks at `start`
with its clamped velocity; non-drum notes get a release at `endTime`. -/
def scheduleNoteCbs (start : ℚ) (ch : ℕ) (isDrum : Bool) (note : MidiNoteM) :
    List PendingCb :=
  if note.endTime ≤ start then []
  else
    let velocity := clamp01 note.velocity
    let triggerTime := if note.time < start then start else note.time
    (⟨triggerTime, ch,
      if isDrum then .drumTrigger note.midi velocity
      else .noteAttack note.midi velocity⟩ : PendingCb) ::
      (if isDrum then [] else [⟨note.endTime, ch, .noteRelease note.midi⟩])

/-- `scheduleTrack` inside `scheduleMidiNotes`. -/
def scheduleTrackNotes (start : ℚ) (tr : MidiTrackM) : List PendingCb :=
  tr.notes.flatMap (scheduleNoteCbs start (sanitizeChannel tr.channel) tr.isDrum)

/-- `scheduleMidiNotes(fromSeconds)` over the engine: creates the channel
of every non-drum track and registers the note callbacks. -/
def scheduleMidiNotesE (fromSeconds : ℚ) (e : Engine) : Engine :=
  let start := max 0 fromSeconds
  e.tracks.foldl
    (fun acc tr =>
      let acc1 :=
        if tr.isDrum then acc
        else { acc with channels := ensureChannel acc.channels (sanitizeChannel tr.channel) }
      { acc1 with pending := acc1.pending ++ scheduleTrackNotes start tr })
    e

/-- `scheduleMidiAutomation(fromSeconds)` over the engine: gather the
per-channel entries, then for each channel create its fx, reset it, apply
the latest values synchronously and register future callbacks. -/
def scheduleMidiAutomationE (fromSeconds now : ℚ) (e : Engine) : Engine :=
  let start := max 0 fromSeconds
  (gatherEntries e.tracks).foldl
    (fun acc che =>
      let fx0 := (lookupChannelFx acc.channels che.1).getD freshChannelFx
      let acc1 := { acc with channels := ensureChannel acc.channels che.1 }
      let r := processChannelEntry start now che.1 che.2 fx0
      { acc1 with
        channels := setChannelFx acc1.channels che.1 r.1
        pending := acc1.pending ++ r.2 })
    e

def releaseAllVoicesE (e : Engine) : Engine :=
  { e with channels := e.channels.map fun p =>
      (p.1, { p.2 with state :=
        { p.2.state with sustainDown := false, sustainedNotes := [] } }) }

def stopTransportE (e : Engine) : Engine := { e with transportState := .stopped }

def cancelTransportE (e : Engine) : Engine := { e with pending := [] }

def stopExternalE (e : Engine) : Engine := { e with externalStart := none }

def restoreGainE (e : Engine) : Engine := { e with outputGain := 1 }

/-- `startExternalAudio(fromSeconds, startAt)`. -/
def startExternalAudioE (fromSeconds startAt : ℚ) (e : Engine) : Engine :=
  if e.audioMode ≠ .external then e
  else if ¬ e.externalPlayerLoaded then e
  else
    match e.externalAudio with
    | none => e
    | some cfg =>
      let offsetSeconds := cfg.offsetMs / 1000
      let audioPos := fromSeconds + offsetSeconds
      if 0 ≤ audioPos then { e with externalStart := some (startAt, audioPos) }
      else { e with externalStart := some (startAt + -audioPos, 0) }

/-- The tail of `playFrom` from `const startAt = Tone.now()` onwards:
re-check disposed/generation, schedule (midi mode) or start the external
player, re-check again, then start the transport at `start`. -/
def playFromTail (gen : ℕ) (start now : ℚ) (e : Engine) : Engine :=
  if e.disposed then e
  else if gen ≠ e.playGeneration then e
  else
    let e1 :=
      if e.audioMode = .midi then scheduleMidiNotesE start (scheduleMidiAutomationE start now e)
      else startExternalAudioE start now e
    if e1.disposed then e1
    else if gen ≠ e1.playGeneration then e1
    else { e1 with transportState := .started, transportSeconds := start }

/-- The outcome of the first resumed section of `playFrom`: either the call
completed synchronously, or it suspended awaiting the external-audio load. -/
inductive PlayFromStage where
  | finished (e : Engine) : PlayFromStage
  | awaitLoad (start : ℚ) (e : Engine) : PlayFromStage
  deriving DecidableEq, Repr

/-- Continuation of `playFrom` after `await this.ensureStarted()`: abort
untouched when disposed or when a newer generation started; otherwise stop
and cancel everything, release voices, restore the master gain, and either
suspend for the external load or finish the midi path. -/
def playFromContA (gen : ℕ) (fromSeconds now : ℚ) (e : Engine) : PlayFromStage :=
  if e.disposed then .finished e
  else if gen ≠ e.playGeneration then .finished e
  else
    let start := max 0 fromSeconds
    let e1 := restoreGainE (releaseAllVoicesE (stopExternalE (cancelTransportE
      (stopTransportE e))))
    if e1.audioMode = .external then .awaitLoad start e1
    else .finished (playFromTail gen start now e1)

/-- Continuation of `playFrom` after `await this.ensureExternalLoaded()`:
abort untouched when a newer generation started. -/
def playFromContB (gen : ℕ) (start now : ℚ) (e : Engine) : Engine :=
  if gen ≠ e.playGeneration then e
  else playFromTail gen start now e

/-- The synchronous entry of `playFrom`:
`const gen = ++this.playGeneration`. -/
def playFromBegin (e : Engine) : ℕ × Engine :=
  (e.playGeneration + 1, { e with playGeneration := e.playGeneration + 1 })

/-- `pause()`: bump the generation, pause the transport, cancel all pending
callbacks, stop the external player, release all voices and hard-mute. -/
def pause (e : Engine) : Engine :=
  let e1 := { e with
    playGeneration := e.playGeneration + 1
    transportState := .paused }
  let e2 := releaseAllVoicesE (stopExternalE (cancelTransportE e1))
  { e2 with outputGain := 0 }

def isPlayingE (e : Engine) : Bool := e.transportState = .started

/-- `setPositionSeconds(seconds)`: the source contains no `throw` — a
`.error` result would model one — and silently pauses first when running. -/
def setPositionSeconds (e : Engine) (seconds : ℚ) : Except String Engine :=
  let e1 := if isPlayingE e then pause e else e
  .ok { e1 with transportSeconds := max 0 seconds }

/-! ## Claim theorems on the engine -/

/-- Claim C2: RPN pitch-bend-range derivation.  The merged stream is sorted
by time with the fixed tie priority 101, 100, 6, 38 (so the example works
even when the data-entry byte is listed first); before any selector event
the selector pair is `(127, 127) ≠ (0, 0)` and data-entry events are then
ignored; the example `(101→0)(100→0)(6→12/127)` at `t = 0` yields the single
range point 12 semitones, and applying it followed by a pitch-bend value of
`0.5` puts `0.5 × 12 × 100 = 600` cents of detune on the voice. -/
theorem rpn_pitch_bend_range :
    derivePitchBendRange [⟨0, 101, 0⟩, ⟨0, 100, 0⟩, ⟨0, 6, 12 / 127⟩] = [⟨0, 12⟩] ∧
      derivePitchBendRange [⟨0, 6, 12 / 127⟩, ⟨0, 101, 0⟩, ⟨0, 100, 0⟩] = [⟨0, 12⟩] ∧
      ((applyAuto .pitchBend ((applyAuto .range freshChannelFx 0 12).1) 1 (1 / 2)).1).state.pitchBendRangeSemitones = 12 ∧
      ((applyAuto .pitchBend ((applyAuto .range freshChannelFx 0 12).1) 1 (1 / 2)).1).detune = 600 ∧
      rpnInit.rpnMsb = 127 ∧ rpnInit.rpnLsb = 127 ∧
      ∀ (st : RpnState) (e : CcEv), ¬ (st.rpnMsb = 0 ∧ st.rpnLsb = 0) →
        e.controller = 6 ∨ e.controller = 38 → rpnStep st e = st := by
  refine ⟨?_, ?_, ?_, ?_, rfl, rfl, ?_⟩
  · norm_num [derivePitchBendRange, List.insertionSort, List.orderedInsert, rpnLe,
      rpnPriority, rpnStep, rpnInit, rpnV7, jsRound, List.foldl,
      DEFAULT_PITCH_BEND_RANGE_SEMITONES, Int.floor_eq_iff]
  · norm_num [derivePitchBendRange, List.insertionSort, List.orderedInsert, rpnLe,
      rpnPriority, rpnStep, rpnInit, rpnV7, jsRound, List.foldl,
      DEFAULT_PITCH_BEND_RANGE_SEMITONES, Int.floor_eq_iff]
  · norm_num [applyAuto, applyPitchBendFx, freshChannelFx, defaultChannelState,
      clamp11, DEFAULT_PITCH_BEND_RANGE_SEMITONES]
  · norm_num [applyAuto, applyPitchBendFx, freshChannelFx, defaultChannelState,
      clamp11, DEFAULT_PITCH_BEND_RANGE_SEMITONES]
  · intro st e hsel hde
    have h101 : e.controller ≠ 101 := by
      rcases hde with h | h <;> omega
    have h100 : e.controller ≠ 100 := by
      rcases hde with h | h <;> omega
    unfold rpnStep
    rw [if_neg h101, if_neg h100, if_neg hsel]

/-- Witness for the quantified data-entry-ignored component of C2: with the
initial selector `(127, 127)` a data-entry MSB event leaves the fold state
unchanged. -/
theorem rpn_pitch_bend_range_witness :
    ¬ ((rpnInit.rpnMsb = 0 ∧ rpnInit.rpnLsb = 0)) ∧
      rpnStep rpnInit ⟨0, 6, 1⟩ = rpnInit :=
  ⟨by norm_num [rpnInit], rpn_pitch_bend_range.2.2.2.2.2.2 rpnInit ⟨0, 6, 1⟩
    (by norm_num [rpnInit]) (Or.inl rfl)⟩

/-- Engine constructor helper for concrete traces. -/
def mkEngineE (mode : AudioMode) (tracks : List MidiTrackM) : Engine :=
  ⟨false, 0, mode, .stopped, 0, 1, [], [], none, false, none, tracks⟩

/-- Concrete engine for the sustain trace: midi mode, one channel. -/
def E3 : Engine := { mkEngineE .midi [] with channels := [(0, freshChannelFx)] }

/-- The claim's sustain scenario as fired callbacks: note-on (pitch 60,
velocity 1) at t = 0, sustain down at t = 0.5, the scheduled note-off at
t = 1, sustain up at t = 1.5. -/
def sustainTraceCbs : List PendingCb :=
  [⟨0, 0, .noteAttack 60 1⟩, ⟨1 / 2, 0, .auto .sustain 1⟩,
    ⟨1, 0, .noteRelease 60⟩, ⟨3 / 2, 0, .auto .sustain 0⟩]

/-- Claim C3: the sustain-pedal protocol.  A sustain value ≥ 0.5 means down
and < 0.5 means up; while down a note-off defers the release and records
the pitch in `sustainedNotes`; the down→up transition releases every
sustained pitch at that instant and clears the set; a note-on for a
sustained pitch force-releases it first, removes it from the set, and then
attacks.  Concretely, in the scenario note-on t=0 (1 s), sustain down
t=0.5, note-off t=1, sustain up t=1.5, the only sounds are the attack at
t=0 and the deferred release at t=1.5. -/
theorem sustain_pedal_protocol :
    (∀ (fx : ChannelFx) (t v : ℚ), 1 / 2 ≤ v →
      ((applyAuto .sustain fx t v).1).state.sustainDown = true) ∧
      (∀ (fx : ChannelFx) (t v : ℚ), v < 1 / 2 →
        ((applyAuto .sustain fx t v).1).state.sustainDown = false) ∧
      (∀ (fx : ChannelFx) (midi : ℕ) (t : ℚ), fx.state.sustainDown = true →
        noteReleaseFx fx midi t =
          ({ fx with state :=
              { fx.state with sustainedNotes := setAdd fx.state.sustainedNotes midi } },
            [])) ∧
      (∀ (fx : ChannelFx) (t v : ℚ), fx.state.sustainDown = true → v < 1 / 2 →
        applyAuto .sustain fx t v =
          ({ fx with state :=
              { fx.state with sustainDown := false, sustainedNotes := [] } },
            fx.state.sustainedNotes.map fun m => .release m t)) ∧
      (∀ (fx : ChannelFx) (midi : ℕ) (v t : ℚ), midi ∈ fx.state.sustainedNotes →
        noteAttackFx fx midi v t =
          ({ fx with state :=
              { fx.state with sustainedNotes := fx.state.sustainedNotes.erase midi } },
            [.release midi t, .attack midi v t])) ∧
      (runCallbacks E3 (sustainTraceCbs.take 3)).2 = [.attack 60 1 0] ∧
      (runCallbacks E3 sustainTraceCbs).2 = [.attack 60 1 0, .release 60 (3 / 2)] ∧
      lookupChannelFx ((runCallbacks E3 sustainTraceCbs).1).channels 0 =
        some ⟨⟨2, 0, 0, 0, 0, 1, 1, 0, false, []⟩, 0, 0, 0, 0, .db 0⟩ := by
  refine ⟨?_, ?_, ?_, ?_, ?_, ?_, ?_, ?_⟩
  · intro fx t v h
    simp only [applyAuto, if_pos h]
    split
    · rename_i hcond
      simp at hcond
    · rfl
  · intro fx t v h
    simp only [applyAuto, if_neg (not_le.mpr h)]
    split
    · rfl
    · rfl
  · intro fx midi t h
    unfold noteReleaseFx
    rw [if_pos h]
  · intro fx t v hdown hv
    simp only [applyAuto, if_neg (not_le.mpr hv)]
    rw [if_pos ⟨hdown, by simp⟩]
  · intro fx midi v t h
    unfold noteAttackFx
    rw [if_pos h]
  · norm_num [runCallbacks, fireCallback, applyAuto, noteAttackFx, noteReleaseFx,
      setAdd, lookupChannelFx, setChannelFx, E3, mkEngineE, sustainTraceCbs,
      freshChannelFx, defaultChannelState, DEFAULT_PITCH_BEND_RANGE_SEMITONES,
      applyPitchBendFx, List.take, List.foldl, List.erase]
  · norm_num [runCallbacks, fireCallback, applyAuto, noteAttackFx, noteReleaseFx,
      setAdd, lookupChannelFx, setChannelFx, E3, mkEngineE, sustainTraceCbs,
      freshChannelFx, defaultChannelState, DEFAULT_PITCH_BEND_RANGE_SEMITONES,
      applyPitchBendFx, List.take, List.foldl, List.erase]
  · norm_num [runCallbacks, fireCallback, applyAuto, noteAttackFx, noteReleaseFx,
      setAdd, lookupChannelFx, setChannelFx, E3, mkEngineE, sustainTraceCbs,
      freshChannelFx, defaultChannelState, DEFAULT_PITCH_BEND_RANGE_SEMITONES,
      applyPitchBendFx, List.take, List.foldl, List.erase]

/-- Witness for the quantified components of C3, at a state with pitch 60
sustained. -/
theorem sustain_pedal_protocol_witness :
    (⟨⟨2, 0, 0, 0, 0, 1, 1, 0, true, [60]⟩, 0, 0, 0, 0, .db 0⟩ : ChannelFx).state.sustainDown = true ∧
      applyAuto .sustain ⟨⟨2, 0, 0, 0, 0, 1, 1, 0, true, [60]⟩, 0, 0, 0, 0, .db 0⟩ 2 0 =
        (⟨⟨2, 0, 0, 0, 0, 1, 1, 0, false, []⟩, 0, 0, 0, 0, .db 0⟩, [.release 60 2]) := by
  constructor
  · rfl
  · have h := sustain_pedal_protocol.2.2.2.1
      ⟨⟨2, 0, 0, 0, 0, 1, 1, 0, true, [60]⟩, 0, 0, 0, 0, .db 0⟩ 2 0 rfl (by norm_num)
    simpa using h

/-- Counterexample to claim C7 as stated: on the time-sorted stream
`[(0, 0), (0.001, 1)]` with the pitch-bend parameters (ε = 1/8192,
interval = 1/60 s), the second point replaces the first (they are closer in
time than the minimum interval), so the output is `[(0.001, 1)]`: the first
point's value 0 — which is ε-distinct from the kept value 1 — is *not*
preserved, and the output size 1 exceeds `duration / minInterval =
0.001/(1/60) = 0.06`. -/
theorem compaction_counterexample :
    compactInPlace (1 / 60) (1 / 8192) [⟨0, 0⟩, ⟨1 / 1000, 1⟩] = [⟨1 / 1000, 1⟩] ∧
      ¬ (((compactInPlace (1 / 60) (1 / 8192) [⟨0, 0⟩, ⟨1 / 1000, 1⟩]).length : ℚ) ≤
        (1 / 1000 - 0) / (1 / 60)) ∧
      ¬ (jsAbs ((1 : ℚ) - 0) ≤ 1 / 8192) := by
  have heval : compactInPlace (1 / 60) (1 / 8192) [⟨0, 0⟩, ⟨1 / 1000, 1⟩] =
      [⟨1 / 1000, 1⟩] := by
    norm_num [compactInPlace, compactGo, List.insertionSort, List.orderedInsert,
      timeLe, jsAbs]
  refine ⟨heval, ?_, by norm_num [jsAbs]⟩
  rw [heval]
  norm_num

theorem scheduleLatestAndFutureM_nil (start now : ℚ) (ch : ℕ) (k : AutoKind)
    (compact : Option (ℚ × ℚ)) (fx : ChannelFx) :
    scheduleLatestAndFutureM start now ch k [] compact fx = (fx, []) := by
  simp [scheduleLatestAndFutureM]

theorem derivePitchBendRange_nil : derivePitchBendRange [] = [] := by
  simp [derivePitchBendRange]

/-- Claim C7 (amended): the compaction loop drops a point whose value is
within ε of the previously kept point; a farther-valued point closer in
time than the minimum interval replaces the previously kept point (latest
value wins); otherwise the point is appended.  The output size is bounded
by `duration / minInterval` *plus one* (not by `duration / minInterval`,
and the first point's value may be replaced rather than preserved); in
particular any pitch-bend stream spanning at most 99 ms — e.g. 100 points —
compacts to fewer than 20 scheduled callbacks.  The last
semantically-distinct value *is* preserved: for a nonempty time-sorted
stream the output is nonempty and its last value is within the stream
epsilon of the last input value.  Pitch bend is compacted with epsilon
1/8192 and interval 1/60 s, and each 7-bit controller stream (mod wheel,
aftertouch, tremolo, volume, expression, pan) with epsilon 1/127 and
interval 1/30 s, as the per-stream scheduling equations state. -/
theorem compaction_behaviour :
    (∀ (m ε : ℚ) (prev e : TimeValue) (accTail rest : List TimeValue),
      jsAbs (e.value - prev.value) ≤ ε →
        compactGo m ε (prev :: accTail) (e :: rest) = compactGo m ε (prev :: accTail) rest) ∧
      (∀ (m ε : ℚ) (prev e : TimeValue) (accTail rest : List TimeValue),
        ¬ jsAbs (e.value - prev.value) ≤ ε → e.time - prev.time < m →
          compactGo m ε (prev :: accTail) (e :: rest) = compactGo m ε (e :: accTail) rest) ∧
      (∀ (m ε : ℚ) (prev e : TimeValue) (accTail rest : List TimeValue),
        ¬ jsAbs (e.value - prev.value) ≤ ε → ¬ e.time - prev.time < m →
          compactGo m ε (prev :: accTail) (e :: rest) =
            compactGo m ε (e :: prev :: accTail) rest) ∧
      (∀ (m ε lo hi : ℚ) (events : List TimeValue), 0 < m → lo ≤ hi →
        (∀ e ∈ events, lo ≤ e.time ∧ e.time ≤ hi) →
          ((compactInPlace m ε events).length : ℚ) ≤ (hi - lo) / m + 1) ∧
      (∀ (events : List TimeValue) (t0 : ℚ),
        (∀ e ∈ events, t0 ≤ e.time ∧ e.time ≤ t0 + 99 / 1000) →
          (compactInPlace (1 / 60) (1 / 8192) events).length < 20) ∧
      (∀ (m ε : ℚ) (events : List TimeValue), 0 ≤ ε → events ≠ [] →
        List.Sorted timeLe events →
          compactInPlace m ε events ≠ [] ∧
            jsAbs (((compactInPlace m ε events).getLastD default).value -
              (events.getLastD default).value) ≤ ε) ∧
      (∀ (start now : ℚ) (ch : ℕ) (evs : List TimeValue) (fx0 : ChannelFx),
        processChannelEntry start now ch ⟨evs, [], [], [], [], [], [], [], []⟩ fx0 =
          scheduleLatestAndFutureM start now ch .pitchBend evs
            (some (1 / 60, 1 / 8192)) (resetChannelFx fx0)) ∧
      (∀ (start now : ℚ) (ch : ℕ) (evs : List TimeValue) (fx0 : ChannelFx),
        processChannelEntry start now ch ⟨[], evs, [], [], [], [], [], [], []⟩ fx0 =
          scheduleLatestAndFutureM start now ch .modWheel evs
            (some (1 / 30, 1 / 127)) (resetChannelFx fx0)) ∧
      (∀ (start now : ℚ) (ch : ℕ) (evs : List TimeValue) (fx0 : ChannelFx),
        processChannelEntry start now ch ⟨[], [], evs, [], [], [], [], [], []⟩ fx0 =
          scheduleLatestAndFutureM start now ch .aftertouch evs
            (some (1 / 30, 1 / 127)) (resetChannelFx fx0)) ∧
      (∀ (start now : ℚ) (ch : ℕ) (evs : List TimeValue) (fx0 : ChannelFx),
        processChannelEntry start now ch ⟨[], [], [], evs, [], [], [], [], []⟩ fx0 =
          scheduleLatestAndFutureM start now ch .tremolo evs
            (some (1 / 30, 1 / 127)) (resetChannelFx fx0)) ∧
      (∀ (start now : ℚ) (ch : ℕ) (evs : List TimeValue) (fx0 : ChannelFx),
        processChannelEntry start now ch ⟨[], [], [], [], evs, [], [], [], []⟩ fx0 =
          scheduleLatestAndFutureM start now ch .volume evs
            (some (1 / 30, 1 / 127)) (resetChannelFx fx0)) ∧
      (∀ (start now : ℚ) (ch : ℕ) (evs : List TimeValue) (fx0 : ChannelFx),
        processChannelEntry start now ch ⟨[], [], [], [], [], evs, [], [], []⟩ fx0 =
          scheduleLatestAndFutureM start now ch .expression evs
            (some (1 / 30, 1 / 127)) (resetChannelFx fx0)) ∧
      ∀ (start now : ℚ) (ch : ℕ) (evs : List TimeValue) (fx0 : ChannelFx),
        processChannelEntry start now ch ⟨[], [], [], [], [], [], evs, [], []⟩ fx0 =
          scheduleLatestAndFutureM start now ch .pan evs
            (some (1 / 30, 1 / 127)) (resetChannelFx fx0) := by
  refine ⟨?_, ?_, ?_, ?_, ?_, ?_, ?_, ?_, ?_, ?_, ?_, ?_, ?_⟩
  · intro m ε prev e accTail rest h
    rw [compactGo, if_pos h]
  · intro m ε prev e accTail rest h1 h2
    rw [compactGo, if_neg h1, if_pos h2]
  · intro m ε prev e accTail rest h1 h2
    rw [compactGo, if_neg h1, if_neg h2]
  · intro m ε lo hi events hm hlohi hb
    exact compactInPlace_length_bound m ε lo hi events hm hlohi hb
  · intro events t0 hb
    have h := compactInPlace_length_bound (1 / 60) (1 / 8192) t0 (t0 + 99 / 1000)
      events (by norm_num) (by linarith) hb
    have h2 : ((compactInPlace (1 / 60) (1 / 8192) events).length : ℚ) < 20 := by
      have : (t0 + 99 / 1000 - t0) / (1 / 60) + 1 = 694 / 100 := by ring
      rw [this] at h
      linarith
    exact_mod_cast h2
  · intro m ε events hε hne hs
    exact compactInPlace_preserves_last m ε events hε hne hs
  all_goals
    intro start now ch evs fx0
    simp only [processChannelEntry]
    simp [scheduleLatestAndFutureM_nil, derivePitchBendRange_nil]

/-- Witness for C7's amended bound and last-value preservation at the
concrete two-point stream: its compaction has fewer than 20 points and its
last value is within the pitch-bend epsilon of the last input value. -/
theorem compaction_behaviour_witness :
    (∀ e ∈ ([⟨0, 0⟩, ⟨1 / 1000, 1⟩] : List TimeValue),
        (0 : ℚ) ≤ e.time ∧ e.time ≤ 0 + 99 / 1000) ∧
      (compactInPlace (1 / 60) (1 / 8192) [⟨0, 0⟩, ⟨1 / 1000, 1⟩]).length < 20 ∧
      (0 : ℚ) ≤ 1 / 8192 ∧
      ([⟨0, 0⟩, ⟨1 / 1000, 1⟩] : List TimeValue) ≠ [] ∧
      List.Sorted timeLe [⟨0, 0⟩, ⟨1 / 1000, 1⟩] ∧
      compactInPlace (1 / 60) (1 / 8192) [⟨0, 0⟩, ⟨1 / 1000, 1⟩] ≠ [] ∧
      jsAbs (((compactInPlace (1 / 60) (1 / 8192)
            [⟨0, 0⟩, ⟨1 / 1000, 1⟩]).getLastD default).value -
          (([⟨0, 0⟩, ⟨1 / 1000, 1⟩] : List TimeValue).getLastD default).value) ≤
        1 / 8192 := by
  have hb : ∀ e ∈ ([⟨0, 0⟩, ⟨1 / 1000, 1⟩] : List TimeValue),
      (0 : ℚ) ≤ e.time ∧ e.time ≤ 0 + 99 / 1000 := by
    intro e he
    rcases List.mem_cons.mp he with h | h
    · subst h
      norm_num
    · simp at h
      subst h
      norm_num
  have hsort : List.Sorted timeLe [⟨0, 0⟩, ⟨1 / 1000, 1⟩] := by
    norm_num [List.sorted_cons, timeLe]
  have hlastv := compaction_behaviour.2.2.2.2.2.1 (1 / 60) (1 / 8192)
    [⟨0, 0⟩, ⟨1 / 1000, 1⟩] (by norm_num) (by simp) hsort
  exact ⟨hb, compaction_behaviour.2.2.2.2.1 [⟨0, 0⟩, ⟨1 / 1000, 1⟩] 0 hb,
    by norm_num, by simp, hsort, hlastv.1, hlastv.2⟩

/-- Concrete engine exhibiting the missing staleness re-check: the mode has
moved to `'external'` (so any midi-scheduled callback is stale) and the
generation has advanced. -/
def EX8 : Engine :=
  { mkEngineE .external [] with channels := [(0, freshChannelFx)], playGeneration := 5 }

/-- Counterexample to claim C8 as stated: a scheduled pitch-bend automation
callback performs no re-check at all — fired on an engine that has switched
to external mode it still overwrites the channel state (pitch-bend value
1/2, detune 100 cents) instead of being a no-op. -/
theorem stale_automation_counterexample :
    EX8.audioMode = .external ∧
      (fireCallback EX8 ⟨0, 0, .auto .pitchBend (1 / 2)⟩).1.channels =
        [(0, ⟨⟨2, 1 / 2, 0, 0, 0, 1, 1, 0, false, []⟩, 100, 0, 0, 0, .db 0⟩)] ∧
      (fireCallback EX8 ⟨0, 0, .auto .pitchBend (1 / 2)⟩).1.channels ≠ EX8.channels := by
  have heval : (fireCallback EX8 ⟨0, 0, .auto .pitchBend (1 / 2)⟩).1.channels =
      [(0, ⟨⟨2, 1 / 2, 0, 0, 0, 1, 1, 0, false, []⟩, 100, 0, 0, 0, .db 0⟩)] := by
    norm_num [fireCallback, EX8, mkEngineE, lookupChannelFx, setChannelFx,
      applyAuto, applyPitchBendFx, clamp11, freshChannelFx, defaultChannelState,
      DEFAULT_PITCH_BEND_RANGE_SEMITONES]
  refine ⟨rfl, heval, ?_⟩
  rw [heval]
  intro hcontra
  simp [EX8, mkEngineE, freshChannelFx, defaultChannelState,
    DEFAULT_PITCH_BEND_RANGE_SEMITONES] at hcontra

/-- Claim C8 (amended): note-on, note-off and drum callbacks re-check only
the playback mode when they fire and are no-ops (state untouched, no sound)
unless the engine is still in midi mode — they do not consult the
generation counter, and automation callbacks re-check nothing, relying on
`transport.cancel` (see the counterexample).  An in-flight `playFrom`
continuation whose captured generation differs from the live one returns
without mutating state after its suspension point, at both suspension
points. -/
theorem callback_staleness_checks :
    (∀ (e : Engine) (t : ℚ) (ch midi : ℕ) (vel : ℚ), e.audioMode ≠ .midi →
      fireCallback e ⟨t, ch, .noteAttack midi vel⟩ = (e, [])) ∧
      (∀ (e : Engine) (t : ℚ) (ch midi : ℕ), e.audioMode ≠ .midi →
        fireCallback e ⟨t, ch, .noteRelease midi⟩ = (e, [])) ∧
      (∀ (e : Engine) (t : ℚ) (ch midi : ℕ) (vel : ℚ), e.audioMode ≠ .midi →
        fireCallback e ⟨t, ch, .drumTrigger midi vel⟩ = (e, [])) ∧
      (∀ (gen : ℕ) (s now : ℚ) (e : Engine), gen ≠ e.playGeneration →
        playFromContA gen s now e = .finished e) ∧
      ∀ (gen : ℕ) (s now : ℚ) (e : Engine), gen ≠ e.playGeneration →
        playFromContB gen s now e = e := by
  refine ⟨?_, ?_, ?_, ?_, ?_⟩
  · intro e t ch midi vel h
    unfold fireCallback
    simp only [if_pos h]
  · intro e t ch midi h
    unfold fireCallback
    simp only [if_pos h]
  · intro e t ch midi vel h
    unfold fireCallback
    simp only [if_pos h]
  · intro gen s now e h
    unfold playFromContA
    split
    all_goals rfl
  · intro gen s now e h
    unfold playFromContB
    rw [if_pos h]

/-- Witness for C8 (amended): a stale-mode note-off is a no-op and a
stale-generation `playFrom` continuation returns its engine unchanged. -/
theorem callback_staleness_checks_witness :
    (EX8.audioMode ≠ .midi ∧ fireCallback EX8 ⟨1, 0, .noteRelease 60⟩ = (EX8, [])) ∧
      (3 ≠ EX8.playGeneration ∧ playFromContB 3 0 0 EX8 = EX8) := by
  refine ⟨⟨?_, ?_⟩, ⟨?_, ?_⟩⟩
  · intro h
    exact AudioMode.noConfusion (show AudioMode.external = .midi from h)
  · exact callback_staleness_checks.2.1 EX8 1 0 60 (by
      intro h
      exact AudioMode.noConfusion (show AudioMode.external = .midi from h))
  · norm_num [EX8, mkEngineE]
  · exact callback_staleness_checks.2.2.2.2 3 0 0 EX8 (by norm_num [EX8, mkEngineE])

/-- Concrete running engine for C9. -/
def E9 : Engine :=
  { mkEngineE .midi [] with
    transportState := .started
    transportSeconds := 7
    playGeneration := 2
    pending := [⟨1, 0, .noteRelease 60⟩]
    channels := [(0, freshChannelFx)] }

/-- Counterexample to claim C9 as stated: calling `setPositionSeconds` on a
playing engine does not signal a logic error — the result is `.ok` (the
source body contains no throw) and the engine has been silently paused
first, with the position set. -/
theorem setPosition_while_playing_counterexample :
    isPlayingE E9 = true ∧
      setPositionSeconds E9 5 = .ok { pause E9 with transportSeconds := 5 } ∧
      (pause E9).transportState = .paused ∧
      (pause E9).playGeneration = 3 := by
  refine ⟨rfl, ?_, rfl, rfl⟩
  unfold setPositionSeconds
  norm_num [isPlayingE, E9, mkEngineE]

/-- Claim C9 (amended): `setPositionSeconds` called while playback is
running silently corrects the call instead of failing fast: it performs an
implicit `pause()` (which bumps the generation and cancels callbacks) and
then sets the clamped position, returning successfully. -/
theorem setPosition_while_playing_pauses (e : Engine) (s : ℚ)
    (h : isPlayingE e = true) :
    setPositionSeconds e s = .ok { pause e with transportSeconds := max 0 s } := by
  unfold setPositionSeconds
  rw [if_pos h]

/-- Witness for C9 (amended) at the concrete playing engine `E9`. -/
theorem setPosition_while_playing_pauses_witness :
    isPlayingE E9 = true ∧
      setPositionSeconds E9 5 = .ok { pause E9 with transportSeconds := max 0 5 } :=
  ⟨rfl, setPosition_while_playing_pauses E9 5 rfl⟩

/-- Claim C10: resume-from-mid-note behaviour of note scheduling.  For a
non-drum note scheduled from `start` (which is `max 0 fromSeconds` in
`scheduleMidiNotes`, equal to `fromSeconds` whenever `fromSeconds ≥ 0`):
a fully elapsed note is never scheduled; a note already sounding at `start`
attacks exactly at `start` with its original clamped velocity and keeps its
release at `endTime`; a note starting at or after `start` is scheduled at
its original times. -/
theorem resume_note_scheduling (start : ℚ) (ch : ℕ) (note : MidiNoteM) :
    (note.endTime ≤ start → scheduleNoteCbs start ch false note = []) ∧
      (note.time < start → start < note.endTime →
        scheduleNoteCbs start ch false note =
          [⟨start, ch, .noteAttack note.midi (clamp01 note.velocity)⟩,
            ⟨note.endTime, ch, .noteRelease note.midi⟩]) ∧
      (start ≤ note.time → start < note.endTime →
        scheduleNoteCbs start ch false note =
          [⟨note.time, ch, .noteAttack note.midi (clamp01 note.velocity)⟩,
            ⟨note.endTime, ch, .noteRelease note.midi⟩]) := by
  refine ⟨?_, ?_, ?_⟩
  · intro h
    unfold scheduleNoteCbs
    rw [if_pos h]
  · intro h1 h2
    unfold scheduleNoteCbs
    rw [if_neg (not_le.mpr h2), if_pos h1]
    simp
  · intro h1 h2
    unfold scheduleNoteCbs
    rw [if_neg (not_le.mpr h2), if_neg (not_lt.mpr h1)]
    simp

/-- Witness for C10 at a concrete mid-note resume: a note from 0 to 1 s,
resumed at 0.5 s, attacks at 0.5 and releases at 1. -/
theorem resume_note_scheduling_witness :
    (⟨60, 2, 0, 480, 480, 0, 1, 1⟩ : MidiNoteM).time < 1 / 2 ∧
      (1 : ℚ) / 2 < (⟨60, 2, 0, 480, 480, 0, 1, 1⟩ : MidiNoteM).endTime ∧
      scheduleNoteCbs (1 / 2) 0 false ⟨60, 2, 0, 480, 480, 0, 1, 1⟩ =
        [⟨1 / 2, 0, .noteAttack 60 (clamp01 2)⟩, ⟨1, 0, .noteRelease 60⟩] := by
  refine ⟨by norm_num, by norm_num, ?_⟩
  exact (resume_note_scheduling (1 / 2) 0 ⟨60, 2, 0, 480, 480, 0, 1, 1⟩).2.1
    (by norm_num) (by norm_num)

end MidiVis
